import Mathlib

/-!
Verification of the DNS reconciliation core of remnawave-cloudflare-nodes.

The development shallowly embeds the reconciliation logic of
`src/cloudflare_dns/dns_manager.py` (the pure diff that `sync_dns_records`
computes and the order in which it executes the resulting create/delete
requests), the zone-id cache and cycle driver of `src/monitoring_service.py`,
the health snapshot of `src/remnawave/monitor.py`, and the retry loop of
`src/__main__.py`.  External collaborators (the Cloudflare client transport,
the Remnawave client, the Telegram notifier) are modelled as outcome oracles
carried in an environment record: each provider or notifier call is a field
of the environment telling whether that call succeeds or raises, and the
embedding records every mutation call and notifier call it makes.
-/

namespace RemnaCF

/-- A provider-side DNS A-record, as the dict built by
`CloudflareClient.get_dns_records` (the fields `sync_dns_records` reads:
`id` and `content`; `name`, `ttl`, `proxied` are carried along). -/
structure DNSRecord where
  id : String
  name : String
  content : String
  ttl : Nat
  proxied : Bool
deriving Repr, DecidableEq

/-- Boolean membership test on a list of strings, modelling the Python
`in` checks against `healthy_ips` and `configured_set`. -/
def memStr : List String → String → Bool
  | [], _ => false
  | x :: xs, a => if x = a then true else memStr xs a

/-- Insert one record into the insertion-ordered grouping that the
`defaultdict(list)` loop of `sync_dns_records` (lines 40-45) builds:
append to the group of the record content if present, otherwise add a
new group at the end. -/
def insertRecord : List (String × List DNSRecord) → DNSRecord → List (String × List DNSRecord)
  | [], r => [(r.content, [r])]
  | (ip, rs) :: rest, r =>
    if ip = r.content then (ip, rs ++ [r]) :: rest
    else (ip, rs) :: insertRecord rest r

/-- The `existing_by_ip` mapping of `sync_dns_records`: records grouped by
their `content`, groups in first-occurrence order, each group in
provider-returned order. -/
def existing_by_ip (existing : List DNSRecord) : List (String × List DNSRecord) :=
  existing.foldl insertRecord []

/-- Lookup of a group in the insertion-ordered mapping (the Python
`existing_by_ip[ip]`, an empty list when the key is absent). -/
def groupOf : List (String × List DNSRecord) → String → List DNSRecord
  | [], _ => []
  | (k, rs) :: rest, ip => if k = ip then rs else groupOf rest ip

/-- The `existing_counts` value for one IP (lines 40-44): the number of
existing records whose content is that IP; it always equals the length of
the `existing_by_ip` group of the IP. -/
def existing_counts (existing : List DNSRecord) (ip : String) : Nat :=
  (existing.filter (fun r => r.content == ip)).length

/-- One create or delete request that `sync_dns_records` decides to issue. -/
inductive DNSAction where
  | create (ip : String)
  | remove (r : DNSRecord)
deriving Repr, DecidableEq

/-- The requests issued for one configured IP (lines 55-75 of
`dns_manager.py`): a healthy IP is topped up to its weight or its earliest
listed excess records are removed; an unhealthy IP has all of its records
removed. -/
def actionsForIp (byIp : List (String × List DNSRecord)) (healthy : List String)
    (ip : String) (w : Nat) : List DNSAction :=
  let grp := groupOf byIp ip
  let c := grp.length
  if memStr healthy ip then
    if c < w then List.replicate (w - c) (DNSAction.create ip)
    else if w < c then (grp.take (c - w)).map DNSAction.remove
    else []
  else grp.map DNSAction.remove

/-- The configured-IP pass of `sync_dns_records` (lines 55-75), iterating
the configured IP-to-weight entries in order. -/
def part1Actions (byIp : List (String × List DNSRecord)) (healthy : List String) :
    List (String × Nat) → List DNSAction
  | [] => []
  | (ip, w) :: rest => actionsForIp byIp healthy ip w ++ part1Actions byIp healthy rest

/-- The purge pass of `sync_dns_records` (lines 77-82): every group whose
IP is not a configured key is removed wholesale. -/
def part2Actions (configuredKeys : List String) :
    List (String × List DNSRecord) → List DNSAction
  | [] => []
  | (ip, rs) :: rest =>
    (if memStr configuredKeys ip then [] else rs.map DNSAction.remove)
      ++ part2Actions configuredKeys rest

/-- The full sequence of create/delete requests one `sync_dns_records`
call issues for a listed record set, in execution order: the
configured-IP pass followed by the unconfigured purge.  The request
sequence is computed entirely from the listing taken at the start of the
call; executing a request never changes which later requests are issued
(only the success counters used for logging differ). -/
def syncActions (configured : List (String × Nat)) (healthy : List String)
    (existing : List DNSRecord) : List DNSAction :=
  part1Actions (existing_by_ip existing) healthy configured
    ++ part2Actions (configured.map Prod.fst) (existing_by_ip existing)

/-- Number of create requests for a given IP in a request sequence. -/
def createsFor (ip : String) : List DNSAction → Nat
  | [] => 0
  | DNSAction.create k :: rest => (if k = ip then 1 else 0) + createsFor ip rest
  | DNSAction.remove _ :: rest => createsFor ip rest

/-- The records of a given IP that a request sequence deletes, in request
order. -/
def removesFor (ip : String) : List DNSAction → List DNSRecord
  | [] => []
  | DNSAction.create _ :: rest => removesFor ip rest
  | DNSAction.remove r :: rest =>
    if r.content = ip then r :: removesFor ip rest else removesFor ip rest

/-! ### Structural facts about the grouping fold -/

theorem memStr_iff (l : List String) (a : String) : memStr l a = true ↔ a ∈ l := by
  induction l with
  | nil => simp [memStr]
  | cons x xs ih =>
    simp only [memStr, List.mem_cons]
    by_cases h : x = a
    · simp [h]
    · simp only [if_neg h, ih]
      constructor
      · exact fun hx => Or.inr hx
      · rintro (hx | hx)
        · exact absurd hx.symm h
        · exact hx

theorem memStr_eq_false_iff (l : List String) (a : String) :
    memStr l a = false ↔ a ∉ l := by
  rw [← memStr_iff]
  cases memStr l a <;> simp

theorem groupOf_insertRecord (acc : List (String × List DNSRecord)) (r : DNSRecord)
    (ip : String) :
    groupOf (insertRecord acc r) ip
      = groupOf acc ip ++ (if r.content = ip then [r] else []) := by
  induction acc with
  | nil =>
    by_cases h : r.content = ip <;> simp [insertRecord, groupOf, h]
  | cons p rest ih =>
    obtain ⟨k, rs⟩ := p
    by_cases hk : k = r.content
    · by_cases hip : k = ip
      · have hr : r.content = ip := hk.symm.trans hip
        simp [insertRecord, groupOf, hk, hip, hr]
      · have hr : ¬ r.content = ip := fun h => hip (hk.trans h)
        simp [insertRecord, groupOf, hk, hip, hr]
    · by_cases hip : k = ip
      · have hr : ¬ r.content = ip := fun h => hk (hip.trans h.symm)
        have hr2 : ¬ ip = r.content := fun h => hr h.symm
        simp [insertRecord, groupOf, hk, hip, hr, hr2]
      · simp [insertRecord, groupOf, hk, hip, ih]

theorem groupOf_foldl (l : List DNSRecord) (acc : List (String × List DNSRecord))
    (ip : String) :
    groupOf (l.foldl insertRecord acc) ip
      = groupOf acc ip ++ l.filter (fun r => r.content == ip) := by
  induction l generalizing acc with
  | nil => simp
  | cons r rest ih =>
    rw [List.foldl_cons, ih, groupOf_insertRecord]
    by_cases h : r.content = ip
    · simp [List.filter_cons, h]
    · simp [List.filter_cons, h]

theorem groupOf_existing_by_ip (existing : List DNSRecord) (ip : String) :
    groupOf (existing_by_ip existing) ip
      = existing.filter (fun r => r.content == ip) := by
  have h := groupOf_foldl existing [] ip
  simpa [existing_by_ip, groupOf] using h

theorem length_groupOf_existing_by_ip (existing : List DNSRecord) (ip : String) :
    (groupOf (existing_by_ip existing) ip).length = existing_counts existing ip := by
  rw [groupOf_existing_by_ip, existing_counts]

theorem mem_groupOf_content (existing : List DNSRecord) (ip : String) :
    ∀ r ∈ groupOf (existing_by_ip existing) ip, r.content = ip := by
  intro r hr
  rw [groupOf_existing_by_ip] at hr
  have := List.of_mem_filter hr
  simpa using this

/-- Keys of the grouping after one insertion: unchanged when the content is
already a key, otherwise the content is appended at the end. -/
theorem keys_insertRecord (acc : List (String × List DNSRecord)) (r : DNSRecord) :
    (insertRecord acc r).map Prod.fst
      = if r.content ∈ acc.map Prod.fst then acc.map Prod.fst
        else acc.map Prod.fst ++ [r.content] := by
  induction acc with
  | nil => simp [insertRecord]
  | cons p rest ih =>
    obtain ⟨k, rs⟩ := p
    by_cases hk : k = r.content
    · simp [insertRecord, hk]
    · have hne : ¬ r.content = k := fun h => hk h.symm
      by_cases hmem : r.content ∈ rest.map Prod.fst
      · simp [insertRecord, hk, ih, hmem, hne]
      · simp [insertRecord, hk, ih, hmem, hne]

theorem keys_nodup_foldl (l : List DNSRecord) (acc : List (String × List DNSRecord))
    (hacc : (acc.map Prod.fst).Nodup) :
    ((l.foldl insertRecord acc).map Prod.fst).Nodup := by
  induction l generalizing acc with
  | nil => simpa using hacc
  | cons r rest ih =>
    rw [List.foldl_cons]
    apply ih
    rw [keys_insertRecord]
    by_cases hmem : r.content ∈ acc.map Prod.fst
    · simpa [hmem] using hacc
    · simp only [hmem, if_false]
      rw [List.nodup_append]
      exact ⟨hacc, List.nodup_singleton _, by simpa using hmem⟩

theorem keys_nodup_existing_by_ip (existing : List DNSRecord) :
    ((existing_by_ip existing).map Prod.fst).Nodup := by
  exact keys_nodup_foldl existing [] (by simp)

/-- Inserting a record preserves content-homogeneity of the groups. -/
theorem homog_insertRecord (acc : List (String × List DNSRecord)) (r : DNSRecord)
    (hacc : ∀ p ∈ acc, ∀ s ∈ p.2, s.content = p.1) :
    ∀ p ∈ insertRecord acc r, ∀ s ∈ p.2, s.content = p.1 := by
  induction acc with
  | nil =>
    intro p hp s hs
    simp only [insertRecord, List.mem_singleton] at hp
    subst hp
    simp only [List.mem_singleton] at hs
    subst hs
    rfl
  | cons q rest ih =>
    obtain ⟨k, rs⟩ := q
    intro p hp s hs
    by_cases hk : k = r.content
    · simp only [insertRecord, if_pos hk] at hp
      rcases List.mem_cons.1 hp with h | h
      · subst h
        rcases List.mem_append.1 hs with h2 | h2
        · exact hacc (k, rs) (List.mem_cons_self _ _) s h2
        · have h3 : s = r := by simpa using h2
          subst h3
          exact hk.symm
      · exact hacc p (List.mem_cons_of_mem _ h) s hs
    · simp only [insertRecord, if_neg hk] at hp
      rcases List.mem_cons.1 hp with h | h
      · subst h
        exact hacc (k, rs) (List.mem_cons_self _ _) s hs
      · exact ih (fun q hq => hacc q (List.mem_cons_of_mem _ hq)) p h s hs

/-- Every group of the mapping is content-homogeneous: each record in the
group of a key has that key as its content. -/
theorem homog_foldl (l : List DNSRecord) (acc : List (String × List DNSRecord))
    (hacc : ∀ p ∈ acc, ∀ r ∈ p.2, r.content = p.1) :
    ∀ p ∈ l.foldl insertRecord acc, ∀ r ∈ p.2, r.content = p.1 := by
  induction l generalizing acc with
  | nil => simpa using hacc
  | cons r rest ih =>
    rw [List.foldl_cons]
    exact ih (insertRecord acc r) (homog_insertRecord acc r hacc)

theorem homog_existing_by_ip (existing : List DNSRecord) :
    ∀ p ∈ existing_by_ip existing, ∀ r ∈ p.2, r.content = p.1 := by
  exact homog_foldl existing [] (by simp)

/-- With no duplicate keys, the group looked up for a key of the mapping is
exactly the stored group of that entry. -/
theorem groupOf_eq_of_mem (byIp : List (String × List DNSRecord))
    (hnd : (byIp.map Prod.fst).Nodup) :
    ∀ p ∈ byIp, groupOf byIp p.1 = p.2 := by
  induction byIp with
  | nil => simp
  | cons q rest ih =>
    obtain ⟨k, rs⟩ := q
    intro p hp
    rcases List.mem_cons.1 hp with h | h
    · subst h
      simp [groupOf]
    · have hnd2 : (k :: rest.map Prod.fst).Nodup := by simpa using hnd
      have hk : k ≠ p.1 := by
        intro hkp
        have h1 : p.1 ∈ rest.map Prod.fst := List.mem_map_of_mem Prod.fst h
        apply (List.nodup_cons.1 hnd2).1
        rw [hkp]
        exact h1
      simp only [groupOf, if_neg hk]
      exact ih (List.nodup_cons.1 hnd2).2 p h

/-- Every record stored in the grouping of a listing is one of the listed
records. -/
theorem mem_of_mem_group_existing_by_ip (existing : List DNSRecord) :
    ∀ p ∈ existing_by_ip existing, ∀ r ∈ p.2, r ∈ existing := by
  intro p hp r hr
  have h1 := groupOf_eq_of_mem (existing_by_ip existing)
    (keys_nodup_existing_by_ip existing) p hp
  rw [← h1, groupOf_existing_by_ip] at hr
  exact List.mem_of_mem_filter hr

/-! ### Counting creates and removes per IP -/

theorem createsFor_append (ip : String) (l1 l2 : List DNSAction) :
    createsFor ip (l1 ++ l2) = createsFor ip l1 + createsFor ip l2 := by
  induction l1 with
  | nil => simp [createsFor]
  | cons a rest ih =>
    cases a with
    | create k => simp [createsFor, ih, Nat.add_assoc]
    | remove r => simp [createsFor, ih]

theorem removesFor_append (ip : String) (l1 l2 : List DNSAction) :
    removesFor ip (l1 ++ l2) = removesFor ip l1 ++ removesFor ip l2 := by
  induction l1 with
  | nil => simp [removesFor]
  | cons a rest ih =>
    cases a with
    | create k => simp [removesFor, ih]
    | remove r =>
      by_cases h : r.content = ip <;> simp [removesFor, h, ih]

theorem createsFor_replicate_self (ip : String) (n : Nat) :
    createsFor ip (List.replicate n (DNSAction.create ip)) = n := by
  induction n with
  | zero => simp [createsFor]
  | succ m ih => simp [List.replicate_succ, createsFor, ih, Nat.add_comm]

theorem createsFor_replicate_ne (ip k : String) (n : Nat) (h : k ≠ ip) :
    createsFor ip (List.replicate n (DNSAction.create k)) = 0 := by
  induction n with
  | zero => simp [createsFor]
  | succ m ih => simp [List.replicate_succ, createsFor, h, ih]

theorem createsFor_map_remove (ip : String) (l : List DNSRecord) :
    createsFor ip (l.map DNSAction.remove) = 0 := by
  induction l with
  | nil => simp [createsFor]
  | cons r rest ih => simp [createsFor, ih]

theorem removesFor_map_remove_self (ip : String) (l : List DNSRecord)
    (h : ∀ r ∈ l, r.content = ip) :
    removesFor ip (l.map DNSAction.remove) = l := by
  induction l with
  | nil => simp [removesFor]
  | cons r rest ih =>
    have hr : r.content = ip := h r (List.mem_cons_self _ _)
    simp only [List.map_cons, removesFor, if_pos hr]
    rw [ih (fun s hs => h s (List.mem_cons_of_mem _ hs))]

theorem removesFor_map_remove_ne (ip : String) (l : List DNSRecord)
    (h : ∀ r ∈ l, r.content ≠ ip) :
    removesFor ip (l.map DNSAction.remove) = [] := by
  induction l with
  | nil => simp [removesFor]
  | cons r rest ih =>
    have hr : ¬ r.content = ip := h r (List.mem_cons_self _ _)
    simp only [List.map_cons, removesFor, if_neg hr]
    exact ih (fun s hs => h s (List.mem_cons_of_mem _ hs))

theorem removesFor_replicate_create (ip k : String) (n : Nat) :
    removesFor ip (List.replicate n (DNSAction.create k)) = [] := by
  induction n with
  | zero => simp [removesFor]
  | succ m ih => simp [List.replicate_succ, removesFor, ih]

/-! ### Per-IP characterization of the configured pass -/

theorem createsFor_actionsForIp_self (byIp : List (String × List DNSRecord))
    (healthy : List String) (ip : String) (w : Nat)
    (hh : memStr healthy ip = true) :
    createsFor ip (actionsForIp byIp healthy ip w) = w - (groupOf byIp ip).length := by
  unfold actionsForIp
  rw [hh]
  simp only [if_true]
  by_cases h1 : (groupOf byIp ip).length < w
  · rw [if_pos h1, createsFor_replicate_self]
  · rw [if_neg h1]
    by_cases h2 : w < (groupOf byIp ip).length
    · rw [if_pos h2, createsFor_map_remove]
      exact (Nat.sub_eq_zero_of_le (Nat.le_of_lt h2)).symm
    · rw [if_neg h2]
      have : w = (groupOf byIp ip).length := Nat.le_antisymm (Nat.le_of_not_lt h1) (Nat.le_of_not_lt h2)
      simp [createsFor, this]

theorem createsFor_actionsForIp_ne (byIp : List (String × List DNSRecord))
    (healthy : List String) (ip k : String) (w : Nat) (hne : k ≠ ip) :
    createsFor ip (actionsForIp byIp healthy k w) = 0 := by
  unfold actionsForIp
  by_cases hh : memStr healthy k
  · rw [hh]
    simp only [if_true]
    by_cases h1 : (groupOf byIp k).length < w
    · rw [if_pos h1, createsFor_replicate_ne ip k _ hne]
    · rw [if_neg h1]
      by_cases h2 : w < (groupOf byIp k).length
      · rw [if_pos h2, createsFor_map_remove]
      · rw [if_neg h2]; simp [createsFor]
  · rw [Bool.not_eq_true] at hh
    rw [hh]
    simp only [Bool.false_eq_true, if_false]
    exact createsFor_map_remove ip _

theorem createsFor_actionsForIp_unhealthy (byIp : List (String × List DNSRecord))
    (healthy : List String) (ip : String) (w : Nat)
    (hh : memStr healthy ip = false) :
    createsFor ip (actionsForIp byIp healthy ip w) = 0 := by
  unfold actionsForIp
  rw [hh]
  simp only [Bool.false_eq_true, if_false]
  exact createsFor_map_remove ip _

theorem removesFor_actionsForIp_self_healthy (byIp : List (String × List DNSRecord))
    (healthy : List String) (ip : String) (w : Nat)
    (hh : memStr healthy ip = true)
    (hgrp : ∀ r ∈ groupOf byIp ip, r.content = ip) :
    removesFor ip (actionsForIp byIp healthy ip w)
      = (groupOf byIp ip).take ((groupOf byIp ip).length - w) := by
  unfold actionsForIp
  rw [hh]
  simp only [if_true]
  by_cases h1 : (groupOf byIp ip).length < w
  · rw [if_pos h1, removesFor_replicate_create]
    rw [Nat.sub_eq_zero_of_le (Nat.le_of_lt h1), List.take_zero]
  · rw [if_neg h1]
    by_cases h2 : w < (groupOf byIp ip).length
    · rw [if_pos h2]
      exact removesFor_map_remove_self ip _
        (fun r hr => hgrp r (List.mem_of_mem_take hr))
    · rw [if_neg h2]
      have : (groupOf byIp ip).length = w :=
        Nat.le_antisymm (Nat.le_of_not_lt h2) (Nat.le_of_not_lt h1)
      simp [removesFor, this]

theorem removesFor_actionsForIp_self_unhealthy (byIp : List (String × List DNSRecord))
    (healthy : List String) (ip : String) (w : Nat)
    (hh : memStr healthy ip = false)
    (hgrp : ∀ r ∈ groupOf byIp ip, r.content = ip) :
    removesFor ip (actionsForIp byIp healthy ip w) = groupOf byIp ip := by
  unfold actionsForIp
  rw [hh]
  simp only [Bool.false_eq_true, if_false]
  exact removesFor_map_remove_self ip _ hgrp

theorem removesFor_actionsForIp_ne (byIp : List (String × List DNSRecord))
    (healthy : List String) (ip k : String) (w : Nat) (hne : k ≠ ip)
    (hgrp : ∀ r ∈ groupOf byIp k, r.content = k) :
    removesFor ip (actionsForIp byIp healthy k w) = [] := by
  have hgrp2 : ∀ r ∈ groupOf byIp k, r.content ≠ ip :=
    fun r hr h => hne ((hgrp r hr).symm.trans h)
  unfold actionsForIp
  by_cases hh : memStr healthy k
  · rw [hh]
    simp only [if_true]
    by_cases h1 : (groupOf byIp k).length < w
    · rw [if_pos h1, removesFor_replicate_create]
    · rw [if_neg h1]
      by_cases h2 : w < (groupOf byIp k).length
      · rw [if_pos h2]
        exact removesFor_map_remove_ne ip _
          (fun r hr => hgrp2 r (List.mem_of_mem_take hr))
      · rw [if_neg h2]; simp [removesFor]
  · rw [Bool.not_eq_true] at hh
    rw [hh]
    simp only [Bool.false_eq_true, if_false]
    exact removesFor_map_remove_ne ip _ hgrp2

/-! ### Aggregation over the two passes -/

theorem createsFor_part1_not_mem (byIp : List (String × List DNSRecord))
    (healthy : List String) (cfg : List (String × Nat)) (ip : String)
    (hip : ip ∉ cfg.map Prod.fst) :
    createsFor ip (part1Actions byIp healthy cfg) = 0 := by
  induction cfg with
  | nil => simp [part1Actions, createsFor]
  | cons p rest ih =>
    obtain ⟨k, w⟩ := p
    have hk : k ≠ ip := by
      intro h
      exact hip (by simp [h])
    rw [part1Actions, createsFor_append,
      createsFor_actionsForIp_ne byIp healthy ip k w hk,
      ih (fun h => hip (List.mem_cons_of_mem _ h))]

theorem removesFor_part1_not_mem (existing : List DNSRecord)
    (healthy : List String) (cfg : List (String × Nat)) (ip : String)
    (hip : ip ∉ cfg.map Prod.fst) :
    removesFor ip (part1Actions (existing_by_ip existing) healthy cfg) = [] := by
  induction cfg with
  | nil => simp [part1Actions, removesFor]
  | cons p rest ih =>
    obtain ⟨k, w⟩ := p
    have hk : k ≠ ip := by
      intro h
      exact hip (by simp [h])
    rw [part1Actions, removesFor_append,
      removesFor_actionsForIp_ne _ healthy ip k w hk (mem_groupOf_content existing k),
      ih (fun h => hip (List.mem_cons_of_mem _ h))]
    simp

theorem createsFor_part1_entries_ne (byIp : List (String × List DNSRecord))
    (healthy : List String) (cfg : List (String × Nat)) (ip : String)
    (hip : ip ∉ cfg.map Prod.fst) :
    createsFor ip (part1Actions byIp healthy cfg) = 0 := by
  induction cfg with
  | nil => simp [part1Actions, createsFor]
  | cons p rest ih =>
    obtain ⟨k, w⟩ := p
    have hk : k ≠ ip := by
      intro h
      exact hip (by simp [h])
    rw [part1Actions, createsFor_append,
      createsFor_actionsForIp_ne byIp healthy ip k w hk,
      ih (fun h => hip (List.mem_cons_of_mem _ h))]

theorem createsFor_part1 (byIp : List (String × List DNSRecord))
    (healthy : List String) (cfg : List (String × Nat)) (ip : String) (w : Nat)
    (hnd : (cfg.map Prod.fst).Nodup) (hmem : (ip, w) ∈ cfg) :
    createsFor ip (part1Actions byIp healthy cfg)
      = createsFor ip (actionsForIp byIp healthy ip w) := by
  induction cfg with
  | nil => cases hmem
  | cons p rest ih =>
    obtain ⟨k, w2⟩ := p
    have hnd2 : (k :: rest.map Prod.fst).Nodup := by simpa using hnd
    rcases List.mem_cons.1 hmem with h | h
    · have hk : k = ip := (congrArg Prod.fst h).symm
      have hw : w2 = w := (congrArg Prod.snd h).symm
      have hnotin : ip ∉ rest.map Prod.fst := by
        rw [← hk]
        exact (List.nodup_cons.1 hnd2).1
      rw [part1Actions, createsFor_append, hk, hw,
        createsFor_part1_entries_ne byIp healthy rest ip hnotin, Nat.add_zero]
    · have hk : k ≠ ip := by
        intro h2
        apply (List.nodup_cons.1 hnd2).1
        rw [h2]
        exact List.mem_map_of_mem Prod.fst h
      rw [part1Actions, createsFor_append,
        createsFor_actionsForIp_ne byIp healthy ip k w2 hk,
        ih (List.nodup_cons.1 hnd2).2 h, Nat.zero_add]

theorem removesFor_part1 (existing : List DNSRecord)
    (healthy : List String) (cfg : List (String × Nat)) (ip : String) (w : Nat)
    (hnd : (cfg.map Prod.fst).Nodup) (hmem : (ip, w) ∈ cfg) :
    removesFor ip (part1Actions (existing_by_ip existing) healthy cfg)
      = removesFor ip (actionsForIp (existing_by_ip existing) healthy ip w) := by
  induction cfg with
  | nil => cases hmem
  | cons p rest ih =>
    obtain ⟨k, w2⟩ := p
    have hnd2 : (k :: rest.map Prod.fst).Nodup := by simpa using hnd
    rcases List.mem_cons.1 hmem with h | h
    · have hk : k = ip := (congrArg Prod.fst h).symm
      have hw : w2 = w := (congrArg Prod.snd h).symm
      have hnotin : ip ∉ rest.map Prod.fst := by
        rw [← hk]
        exact (List.nodup_cons.1 hnd2).1
      rw [part1Actions, removesFor_append, hk, hw,
        removesFor_part1_not_mem existing healthy rest ip hnotin, List.append_nil]
    · have hk : k ≠ ip := by
        intro h2
        apply (List.nodup_cons.1 hnd2).1
        rw [h2]
        exact List.mem_map_of_mem Prod.fst h
      rw [part1Actions, removesFor_append,
        removesFor_actionsForIp_ne _ healthy ip k w2 hk (mem_groupOf_content existing k),
        ih (List.nodup_cons.1 hnd2).2 h]
      simp

theorem createsFor_part2 (ck : List String)
    (byIp : List (String × List DNSRecord)) (ip : String) :
    createsFor ip (part2Actions ck byIp) = 0 := by
  induction byIp with
  | nil => simp [part2Actions, createsFor]
  | cons p rest ih =>
    obtain ⟨k, rs⟩ := p
    rw [part2Actions, createsFor_append, ih]
    by_cases h : memStr ck k
    · simp [h, createsFor]
    · rw [Bool.not_eq_true] at h
      simp [h, createsFor_map_remove]

theorem removesFor_part2_not_mem (ck : List String)
    (byIp : List (String × List DNSRecord)) (ip : String)
    (hhom : ∀ p ∈ byIp, ∀ r ∈ p.2, r.content = p.1)
    (hip : ip ∉ byIp.map Prod.fst) :
    removesFor ip (part2Actions ck byIp) = [] := by
  induction byIp with
  | nil => simp [part2Actions, removesFor]
  | cons p rest ih =>
    obtain ⟨k, rs⟩ := p
    have hk : k ≠ ip := by
      intro h
      exact hip (by simp [h])
    rw [part2Actions, removesFor_append]
    have h1 : removesFor ip (if memStr ck k = true then [] else rs.map DNSAction.remove) = [] := by
      by_cases h : memStr ck k
      · simp [h, removesFor]
      · rw [Bool.not_eq_true] at h
        simp only [h, Bool.false_eq_true, if_false]
        exact removesFor_map_remove_ne ip rs
          (fun r hr h2 => hk (((hhom (k, rs) (List.mem_cons_self _ _) r hr).symm.trans h2)))
    rw [h1, ih (fun q hq => hhom q (List.mem_cons_of_mem _ hq))
      (fun h => hip (List.mem_cons_of_mem _ h))]
    simp

theorem removesFor_part2 (ck : List String)
    (byIp : List (String × List DNSRecord)) (ip : String)
    (hhom : ∀ p ∈ byIp, ∀ r ∈ p.2, r.content = p.1)
    (hnd : (byIp.map Prod.fst).Nodup) :
    removesFor ip (part2Actions ck byIp)
      = if memStr ck ip = true then [] else groupOf byIp ip := by
  induction byIp with
  | nil => simp [part2Actions, removesFor, groupOf]
  | cons p rest ih =>
    obtain ⟨k, rs⟩ := p
    have hnd2 : (k :: rest.map Prod.fst).Nodup := by simpa using hnd
    by_cases hk : k = ip
    · have hnotin : ip ∉ rest.map Prod.fst := by
        rw [← hk]; exact (List.nodup_cons.1 hnd2).1
      rw [part2Actions, removesFor_append,
        removesFor_part2_not_mem ck rest ip
          (fun q hq => hhom q (List.mem_cons_of_mem _ hq)) hnotin,
        List.append_nil]
      have hgrp : ∀ r ∈ rs, r.content = ip :=
        fun r hr => (hhom (k, rs) (List.mem_cons_self _ _) r hr).trans hk
      by_cases hc : memStr ck ip
      · rw [hk, hc]
        simp [removesFor]
      · rw [Bool.not_eq_true] at hc
        rw [hk, hc]
        simp only [Bool.false_eq_true, if_false]
        rw [removesFor_map_remove_self ip rs hgrp]
        simp [groupOf]
    · rw [part2Actions, removesFor_append]
      have h1 : removesFor ip (if memStr ck k = true then [] else rs.map DNSAction.remove) = [] := by
        by_cases h : memStr ck k
        · simp [h, removesFor]
        · rw [Bool.not_eq_true] at h
          simp only [h, Bool.false_eq_true, if_false]
          exact removesFor_map_remove_ne ip rs
            (fun r hr h2 => hk (((hhom (k, rs) (List.mem_cons_self _ _) r hr).symm.trans h2)))
      rw [h1, ih (fun q hq => hhom q (List.mem_cons_of_mem _ hq))
        (List.nodup_cons.1 hnd2).2]
      simp [groupOf, hk]

/-! ### Master characterization of the diff -/

theorem createsFor_syncActions (cfg : List (String × Nat)) (healthy : List String)
    (existing : List DNSRecord) (ip : String) (w : Nat)
    (hnd : (cfg.map Prod.fst).Nodup) (hmem : (ip, w) ∈ cfg)
    (hh : memStr healthy ip = true) :
    createsFor ip (syncActions cfg healthy existing)
      = w - existing_counts existing ip := by
  rw [syncActions, createsFor_append, createsFor_part2,
    createsFor_part1 _ healthy cfg ip w hnd hmem,
    createsFor_actionsForIp_self _ healthy ip w hh,
    length_groupOf_existing_by_ip, Nat.add_zero]

theorem removesFor_syncActions_healthy (cfg : List (String × Nat)) (healthy : List String)
    (existing : List DNSRecord) (ip : String) (w : Nat)
    (hnd : (cfg.map Prod.fst).Nodup) (hmem : (ip, w) ∈ cfg)
    (hh : memStr healthy ip = true) :
    removesFor ip (syncActions cfg healthy existing)
      = (existing.filter (fun r => r.content == ip)).take (existing_counts existing ip - w) := by
  have hmemk : memStr (cfg.map Prod.fst) ip = true :=
    (memStr_iff _ _).2 (List.mem_map_of_mem Prod.fst hmem)
  rw [syncActions, removesFor_append,
    removesFor_part2 _ _ _ (homog_existing_by_ip existing) (keys_nodup_existing_by_ip existing),
    hmemk, if_pos rfl, List.append_nil,
    removesFor_part1 existing healthy cfg ip w hnd hmem,
    removesFor_actionsForIp_self_healthy _ healthy ip w hh (mem_groupOf_content existing ip),
    groupOf_existing_by_ip, existing_counts]

theorem removesFor_syncActions_unhealthy (cfg : List (String × Nat)) (healthy : List String)
    (existing : List DNSRecord) (ip : String) (w : Nat)
    (hnd : (cfg.map Prod.fst).Nodup) (hmem : (ip, w) ∈ cfg)
    (hh : memStr healthy ip = false) :
    removesFor ip (syncActions cfg healthy existing)
      = existing.filter (fun r => r.content == ip) := by
  have hmemk : memStr (cfg.map Prod.fst) ip = true :=
    (memStr_iff _ _).2 (List.mem_map_of_mem Prod.fst hmem)
  rw [syncActions, removesFor_append,
    removesFor_part2 _ _ _ (homog_existing_by_ip existing) (keys_nodup_existing_by_ip existing),
    hmemk, if_pos rfl, List.append_nil,
    removesFor_part1 existing healthy cfg ip w hnd hmem,
    removesFor_actionsForIp_self_unhealthy _ healthy ip w hh (mem_groupOf_content existing ip),
    groupOf_existing_by_ip]

theorem createsFor_syncActions_unhealthy (cfg : List (String × Nat)) (healthy : List String)
    (existing : List DNSRecord) (ip : String) (w : Nat)
    (hnd : (cfg.map Prod.fst).Nodup) (hmem : (ip, w) ∈ cfg)
    (hh : memStr healthy ip = false) :
    createsFor ip (syncActions cfg healthy existing) = 0 := by
  rw [syncActions, createsFor_append, createsFor_part2,
    createsFor_part1 _ healthy cfg ip w hnd hmem,
    createsFor_actionsForIp_unhealthy _ healthy ip w hh]

theorem removesFor_syncActions_unconfigured (cfg : List (String × Nat)) (healthy : List String)
    (existing : List DNSRecord) (ip : String)
    (hip : ip ∉ cfg.map Prod.fst) :
    removesFor ip (syncActions cfg healthy existing)
      = existing.filter (fun r => r.content == ip) := by
  have hmemk : memStr (cfg.map Prod.fst) ip = false := (memStr_eq_false_iff _ _).2 hip
  rw [syncActions, removesFor_append,
    removesFor_part1_not_mem existing healthy cfg ip hip,
    removesFor_part2 _ _ _ (homog_existing_by_ip existing) (keys_nodup_existing_by_ip existing),
    hmemk]
  simp [groupOf_existing_by_ip]

theorem createsFor_syncActions_unconfigured (cfg : List (String × Nat)) (healthy : List String)
    (existing : List DNSRecord) (ip : String)
    (hip : ip ∉ cfg.map Prod.fst) :
    createsFor ip (syncActions cfg healthy existing) = 0 := by
  rw [syncActions, createsFor_append, createsFor_part2,
    createsFor_part1_not_mem _ healthy cfg ip hip]

/-- C1: for every sync call and every configured IP `x` with weight `w`
that is healthy and has `c` existing A-records, the sync issues exactly
`max(0, w-c)` creates for `x` (truncated subtraction below), and its
deletes for `x` are precisely the first `c-w` records of the group of `x`
in provider-returned order (so exactly `max(0, c-w)` of them); it never
issues both creates and deletes for the same IP, and issues nothing when
`c = w`. -/
theorem weight_correctness (cfg : List (String × Nat)) (healthy : List String)
    (existing : List DNSRecord) (ip : String) (w : Nat)
    (hnd : (cfg.map Prod.fst).Nodup) (hmem : (ip, w) ∈ cfg) (hh : ip ∈ healthy) :
    createsFor ip (syncActions cfg healthy existing)
        = w - existing_counts existing ip ∧
    removesFor ip (syncActions cfg healthy existing)
        = (existing.filter (fun r => r.content == ip)).take (existing_counts existing ip - w) ∧
    (removesFor ip (syncActions cfg healthy existing)).length
        = existing_counts existing ip - w ∧
    (createsFor ip (syncActions cfg healthy existing) = 0 ∨
      removesFor ip (syncActions cfg healthy existing) = []) ∧
    (existing_counts existing ip = w →
      createsFor ip (syncActions cfg healthy existing) = 0 ∧
      removesFor ip (syncActions cfg healthy existing) = []) := by
  have hhb : memStr healthy ip = true := (memStr_iff _ _).2 hh
  have h1 := createsFor_syncActions cfg healthy existing ip w hnd hmem hhb
  have h2 := removesFor_syncActions_healthy cfg healthy existing ip w hnd hmem hhb
  refine ⟨h1, h2, ?_, ?_, ?_⟩
  · rw [h2, List.length_take]
    exact Nat.min_eq_left (Nat.sub_le _ _)
  · rcases Nat.le_total (existing_counts existing ip) w with hle | hle
    · right
      rw [h2, Nat.sub_eq_zero_of_le hle, List.take_zero]
    · left
      rw [h1, Nat.sub_eq_zero_of_le hle]
  · intro heq
    constructor
    · rw [h1, heq, Nat.sub_self]
    · rw [h2, heq, Nat.sub_self, List.take_zero]

theorem weight_correctness_witness :
    createsFor "10.0.0.1"
        (syncActions [("10.0.0.1", 1)] ["10.0.0.1"]
          [⟨"ra", "sub.example.com", "10.0.0.1", 120, false⟩,
           ⟨"rb", "sub.example.com", "10.0.0.1", 120, false⟩])
      = 1 - existing_counts
          [⟨"ra", "sub.example.com", "10.0.0.1", 120, false⟩,
           ⟨"rb", "sub.example.com", "10.0.0.1", 120, false⟩] "10.0.0.1" ∧
    removesFor "10.0.0.1"
        (syncActions [("10.0.0.1", 1)] ["10.0.0.1"]
          [⟨"ra", "sub.example.com", "10.0.0.1", 120, false⟩,
           ⟨"rb", "sub.example.com", "10.0.0.1", 120, false⟩])
      = (List.filter (fun r => r.content == "10.0.0.1")
          [⟨"ra", "sub.example.com", "10.0.0.1", 120, false⟩,
           ⟨"rb", "sub.example.com", "10.0.0.1", 120, false⟩]).take
          (existing_counts
            [⟨"ra", "sub.example.com", "10.0.0.1", 120, false⟩,
             ⟨"rb", "sub.example.com", "10.0.0.1", 120, false⟩] "10.0.0.1" - 1) ∧
    (removesFor "10.0.0.1"
        (syncActions [("10.0.0.1", 1)] ["10.0.0.1"]
          [⟨"ra", "sub.example.com", "10.0.0.1", 120, false⟩,
           ⟨"rb", "sub.example.com", "10.0.0.1", 120, false⟩])).length
      = existing_counts
          [⟨"ra", "sub.example.com", "10.0.0.1", 120, false⟩,
           ⟨"rb", "sub.example.com", "10.0.0.1", 120, false⟩] "10.0.0.1" - 1 ∧
    (createsFor "10.0.0.1"
        (syncActions [("10.0.0.1", 1)] ["10.0.0.1"]
          [⟨"ra", "sub.example.com", "10.0.0.1", 120, false⟩,
           ⟨"rb", "sub.example.com", "10.0.0.1", 120, false⟩]) = 0 ∨
      removesFor "10.0.0.1"
        (syncActions [("10.0.0.1", 1)] ["10.0.0.1"]
          [⟨"ra", "sub.example.com", "10.0.0.1", 120, false⟩,
           ⟨"rb", "sub.example.com", "10.0.0.1", 120, false⟩]) = []) ∧
    (existing_counts
        [⟨"ra", "sub.example.com", "10.0.0.1", 120, false⟩,
         ⟨"rb", "sub.example.com", "10.0.0.1", 120, false⟩] "10.0.0.1" = 1 →
      createsFor "10.0.0.1"
          (syncActions [("10.0.0.1", 1)] ["10.0.0.1"]
            [⟨"ra", "sub.example.com", "10.0.0.1", 120, false⟩,
             ⟨"rb", "sub.example.com", "10.0.0.1", 120, false⟩]) = 0 ∧
      removesFor "10.0.0.1"
          (syncActions [("10.0.0.1", 1)] ["10.0.0.1"]
            [⟨"ra", "sub.example.com", "10.0.0.1", 120, false⟩,
             ⟨"rb", "sub.example.com", "10.0.0.1", 120, false⟩]) = []) :=
  weight_correctness [("10.0.0.1", 1)] ["10.0.0.1"]
    [⟨"ra", "sub.example.com", "10.0.0.1", 120, false⟩,
     ⟨"rb", "sub.example.com", "10.0.0.1", 120, false⟩] "10.0.0.1" 1
    (by decide) (by decide) (by decide)

/-- C4: a configured IP that is not healthy has all of its existing
records requested for deletion, regardless of its weight, and no creates. -/
theorem unhealthy_purge (cfg : List (String × Nat)) (healthy : List String)
    (existing : List DNSRecord) (ip : String) (w : Nat)
    (hnd : (cfg.map Prod.fst).Nodup) (hmem : (ip, w) ∈ cfg) (hh : ip ∉ healthy) :
    removesFor ip (syncActions cfg healthy existing)
        = existing.filter (fun r => r.content == ip) ∧
    createsFor ip (syncActions cfg healthy existing) = 0 := by
  have hhb : memStr healthy ip = false := (memStr_eq_false_iff _ _).2 hh
  exact ⟨removesFor_syncActions_unhealthy cfg healthy existing ip w hnd hmem hhb,
    createsFor_syncActions_unhealthy cfg healthy existing ip w hnd hmem hhb⟩

theorem unhealthy_purge_witness :
    removesFor "10.0.0.1"
        (syncActions [("10.0.0.1", 3)] []
          [⟨"ra", "sub.example.com", "10.0.0.1", 120, false⟩])
      = List.filter (fun r => r.content == "10.0.0.1")
          [⟨"ra", "sub.example.com", "10.0.0.1", 120, false⟩] ∧
    createsFor "10.0.0.1"
        (syncActions [("10.0.0.1", 3)] []
          [⟨"ra", "sub.example.com", "10.0.0.1", 120, false⟩]) = 0 :=
  unhealthy_purge [("10.0.0.1", 3)] []
    [⟨"ra", "sub.example.com", "10.0.0.1", 120, false⟩] "10.0.0.1" 3
    (by decide) (by decide) (by decide)

/-- C5: an IP with existing records that is not a configured key at all has
all of its records requested for deletion (and no creates). -/
theorem unconfigured_purge (cfg : List (String × Nat)) (healthy : List String)
    (existing : List DNSRecord) (ip : String)
    (hnc : ip ∉ cfg.map Prod.fst) :
    removesFor ip (syncActions cfg healthy existing)
        = existing.filter (fun r => r.content == ip) ∧
    createsFor ip (syncActions cfg healthy existing) = 0 :=
  ⟨removesFor_syncActions_unconfigured cfg healthy existing ip hnc,
    createsFor_syncActions_unconfigured cfg healthy existing ip hnc⟩

theorem unconfigured_purge_witness :
    removesFor "10.0.0.9"
        (syncActions [("10.0.0.1", 1)] ["10.0.0.1", "10.0.0.9"]
          [⟨"r9", "sub.example.com", "10.0.0.9", 120, false⟩])
      = List.filter (fun r => r.content == "10.0.0.9")
          [⟨"r9", "sub.example.com", "10.0.0.9", 120, false⟩] ∧
    createsFor "10.0.0.9"
        (syncActions [("10.0.0.1", 1)] ["10.0.0.1", "10.0.0.9"]
          [⟨"r9", "sub.example.com", "10.0.0.9", 120, false⟩]) = 0 :=
  unconfigured_purge [("10.0.0.1", 1)] ["10.0.0.1", "10.0.0.9"]
    [⟨"r9", "sub.example.com", "10.0.0.9", 120, false⟩] "10.0.0.9"
    (by decide)

/-! ### Applying the computed actions to the record set -/

/-- The records a request sequence deletes, in order. -/
def removedRecords : List DNSAction → List DNSRecord
  | [] => []
  | DNSAction.create _ :: rest => removedRecords rest
  | DNSAction.remove r :: rest => r :: removedRecords rest

/-- The contents of the records a request sequence creates, in order. -/
def createdIps : List DNSAction → List String
  | [] => []
  | DNSAction.create ip :: rest => ip :: createdIps rest
  | DNSAction.remove _ :: rest => createdIps rest

/-- Removal of the records whose id is among the given ids, keeping order:
the provider-side effect of the delete requests (each delete removes the
record with the given id). -/
def removeByIds (ids : List String) : List DNSRecord → List DNSRecord
  | [] => []
  | r :: rest =>
    if memStr ids r.id then removeByIds ids rest else r :: removeByIds ids rest

/-- The provider state after executing a request sequence: deletion is by
record id, creation appends fresh records whose contents are the created
IPs. -/
def applyActions (existing : List DNSRecord) (acts : List DNSAction)
    (newRecs : List DNSRecord) : List DNSRecord :=
  removeByIds ((removedRecords acts).map DNSRecord.id) existing ++ newRecs

/-- The reconciliation invariant of section 3 of the spec: every healthy
configured IP has exactly its weight in records, and every existing record
belongs to a healthy configured IP. -/
def invariantHolds (cfg : List (String × Nat)) (healthy : List String)
    (existing : List DNSRecord) : Prop :=
  (∀ p ∈ cfg, p.1 ∈ healthy → existing_counts existing p.1 = p.2) ∧
  (∀ r ∈ existing, ∃ p ∈ cfg, r.content = p.1 ∧ p.1 ∈ healthy)

theorem removedRecords_append (l1 l2 : List DNSAction) :
    removedRecords (l1 ++ l2) = removedRecords l1 ++ removedRecords l2 := by
  induction l1 with
  | nil => simp [removedRecords]
  | cons a rest ih =>
    cases a <;> simp [removedRecords, ih]

theorem createdIps_append (l1 l2 : List DNSAction) :
    createdIps (l1 ++ l2) = createdIps l1 ++ createdIps l2 := by
  induction l1 with
  | nil => simp [createdIps]
  | cons a rest ih =>
    cases a <;> simp [createdIps, ih]

theorem removedRecords_map_remove (l : List DNSRecord) :
    removedRecords (l.map DNSAction.remove) = l := by
  induction l with
  | nil => simp [removedRecords]
  | cons r rest ih => simp [removedRecords, ih]

theorem removedRecords_replicate_create (k : String) (n : Nat) :
    removedRecords (List.replicate n (DNSAction.create k)) = [] := by
  induction n with
  | zero => simp [removedRecords]
  | succ m ih => simp [List.replicate_succ, removedRecords, ih]

theorem createdIps_map_remove (l : List DNSRecord) :
    createdIps (l.map DNSAction.remove) = [] := by
  induction l with
  | nil => simp [createdIps]
  | cons r rest ih => simp [createdIps, ih]

theorem createdIps_replicate_create (k : String) (n : Nat) :
    createdIps (List.replicate n (DNSAction.create k)) = List.replicate n k := by
  induction n with
  | zero => simp [createdIps]
  | succ m ih => simp [List.replicate_succ, createdIps, ih]

theorem removesFor_eq_filter_removedRecords (ip : String) (acts : List DNSAction) :
    removesFor ip acts = (removedRecords acts).filter (fun r => r.content == ip) := by
  induction acts with
  | nil => simp [removesFor, removedRecords]
  | cons a rest ih =>
    cases a with
    | create k => simp [removesFor, removedRecords, ih]
    | remove r =>
      by_cases h : r.content = ip <;>
        simp [removesFor, removedRecords, List.filter_cons, h, ih]

theorem createsFor_eq_length_filter_createdIps (ip : String) (acts : List DNSAction) :
    createsFor ip acts = ((createdIps acts).filter (fun k => k == ip)).length := by
  induction acts with
  | nil => simp [createsFor, createdIps]
  | cons a rest ih =>
    cases a with
    | create k =>
      by_cases h : k = ip <;>
        simp [createsFor, createdIps, List.filter_cons, h, ih, Nat.add_comm]
    | remove r => simp [createsFor, createdIps, ih]

theorem mem_removedRecords_actionsForIp (byIp : List (String × List DNSRecord))
    (healthy : List String) (k : String) (w : Nat) (r : DNSRecord)
    (hr : r ∈ removedRecords (actionsForIp byIp healthy k w)) :
    r ∈ groupOf byIp k := by
  unfold actionsForIp at hr
  by_cases hh : memStr healthy k
  · rw [hh] at hr
    simp only [if_true] at hr
    by_cases h1 : (groupOf byIp k).length < w
    · rw [if_pos h1, removedRecords_replicate_create] at hr
      cases hr
    · rw [if_neg h1] at hr
      by_cases h2 : w < (groupOf byIp k).length
      · rw [if_pos h2, removedRecords_map_remove] at hr
        exact List.mem_of_mem_take hr
      · rw [if_neg h2] at hr
        cases hr
  · rw [Bool.not_eq_true] at hh
    rw [hh] at hr
    simp only [Bool.false_eq_true, if_false, removedRecords_map_remove] at hr
    exact hr

theorem mem_removedRecords_part1 (byIp : List (String × List DNSRecord))
    (healthy : List String) (cfg : List (String × Nat)) (r : DNSRecord)
    (hr : r ∈ removedRecords (part1Actions byIp healthy cfg)) :
    ∃ k, r ∈ groupOf byIp k := by
  induction cfg with
  | nil => simp [part1Actions, removedRecords] at hr
  | cons p rest ih =>
    obtain ⟨k, w⟩ := p
    rw [part1Actions, removedRecords_append] at hr
    rcases List.mem_append.1 hr with h | h
    · exact ⟨k, mem_removedRecords_actionsForIp byIp healthy k w r h⟩
    · exact ih h

theorem mem_removedRecords_part2 (ck : List String)
    (byIp : List (String × List DNSRecord)) (r : DNSRecord)
    (hr : r ∈ removedRecords (part2Actions ck byIp)) :
    ∃ p ∈ byIp, r ∈ p.2 := by
  induction byIp with
  | nil => simp [part2Actions, removedRecords] at hr
  | cons p rest ih =>
    obtain ⟨k, rs⟩ := p
    rw [part2Actions, removedRecords_append] at hr
    rcases List.mem_append.1 hr with h | h
    · by_cases hc : memStr ck k
      · rw [hc] at h
        simp [removedRecords] at h
      · rw [Bool.not_eq_true] at hc
        rw [hc] at h
        simp only [Bool.false_eq_true, if_false, removedRecords_map_remove] at h
        exact ⟨(k, rs), List.mem_cons_self _ _, h⟩
    · obtain ⟨q, hq, hq2⟩ := ih h
      exact ⟨q, List.mem_cons_of_mem _ hq, hq2⟩

theorem mem_removedRecords_syncActions (cfg : List (String × Nat))
    (healthy : List String) (existing : List DNSRecord) (r : DNSRecord)
    (hr : r ∈ removedRecords (syncActions cfg healthy existing)) :
    r ∈ existing := by
  rw [syncActions, removedRecords_append] at hr
  rcases List.mem_append.1 hr with h | h
  · obtain ⟨k, hk⟩ := mem_removedRecords_part1 _ healthy cfg r h
    rw [groupOf_existing_by_ip] at hk
    exact List.mem_of_mem_filter hk
  · obtain ⟨p, hp, hp2⟩ := mem_removedRecords_part2 _ _ r h
    exact mem_of_mem_group_existing_by_ip existing p hp r hp2

theorem mem_createdIps_actionsForIp (byIp : List (String × List DNSRecord))
    (healthy : List String) (k : String) (w : Nat) (s : String)
    (hs : s ∈ createdIps (actionsForIp byIp healthy k w)) :
    s = k ∧ memStr healthy k = true := by
  unfold actionsForIp at hs
  by_cases hh : memStr healthy k
  · rw [hh] at hs
    simp only [if_true] at hs
    by_cases h1 : (groupOf byIp k).length < w
    · rw [if_pos h1, createdIps_replicate_create] at hs
      exact ⟨List.eq_of_mem_replicate hs, hh⟩
    · rw [if_neg h1] at hs
      by_cases h2 : w < (groupOf byIp k).length
      · rw [if_pos h2, createdIps_map_remove] at hs
        cases hs
      · rw [if_neg h2] at hs
        cases hs
  · rw [Bool.not_eq_true] at hh
    rw [hh] at hs
    simp only [Bool.false_eq_true, if_false, createdIps_map_remove] at hs
    cases hs

theorem mem_createdIps_part1 (byIp : List (String × List DNSRecord))
    (healthy : List String) (cfg : List (String × Nat)) (s : String)
    (hs : s ∈ createdIps (part1Actions byIp healthy cfg)) :
    ∃ w, (s, w) ∈ cfg ∧ memStr healthy s = true := by
  induction cfg with
  | nil => simp [part1Actions, createdIps] at hs
  | cons p rest ih =>
    obtain ⟨k, w⟩ := p
    rw [part1Actions, createdIps_append] at hs
    rcases List.mem_append.1 hs with h | h
    · obtain ⟨h1, h2⟩ := mem_createdIps_actionsForIp byIp healthy k w s h
      refine ⟨w, ?_, ?_⟩
      · rw [h1]
        exact List.mem_cons_self _ _
      · rw [h1]
        exact h2
    · obtain ⟨w2, hw2, hh2⟩ := ih h
      exact ⟨w2, List.mem_cons_of_mem _ hw2, hh2⟩

theorem createdIps_part2 (ck : List String) (byIp : List (String × List DNSRecord)) :
    createdIps (part2Actions ck byIp) = [] := by
  induction byIp with
  | nil => simp [part2Actions, createdIps]
  | cons p rest ih =>
    obtain ⟨k, rs⟩ := p
    rw [part2Actions, createdIps_append, ih]
    by_cases hc : memStr ck k
    · simp [hc, createdIps]
    · rw [Bool.not_eq_true] at hc
      simp [hc, createdIps_map_remove]

theorem mem_createdIps_syncActions (cfg : List (String × Nat))
    (healthy : List String) (existing : List DNSRecord) (s : String)
    (hs : s ∈ createdIps (syncActions cfg healthy existing)) :
    ∃ w, (s, w) ∈ cfg ∧ memStr healthy s = true := by
  rw [syncActions, createdIps_append, createdIps_part2, List.append_nil] at hs
  exact mem_createdIps_part1 _ healthy cfg s hs

/-- Distinct ids identify records uniquely within a listing. -/
theorem eq_of_id_eq (existing : List DNSRecord)
    (hids : (existing.map DNSRecord.id).Nodup) :
    ∀ r ∈ existing, ∀ s ∈ existing, r.id = s.id → r = s := by
  induction existing with
  | nil => simp
  | cons x xs ih =>
    have hnd2 : (x.id :: xs.map DNSRecord.id).Nodup := by simpa using hids
    intro r hr s hscons heq
    rcases List.mem_cons.1 hr with h1 | h1
    · rcases List.mem_cons.1 hscons with h2 | h2
      · rw [h1, h2]
      · exfalso
        apply (List.nodup_cons.1 hnd2).1
        rw [h1] at heq
        rw [heq]
        exact List.mem_map_of_mem DNSRecord.id h2
    · rcases List.mem_cons.1 hscons with h2 | h2
      · exfalso
        apply (List.nodup_cons.1 hnd2).1
        rw [h2] at heq
        rw [← heq]
        exact List.mem_map_of_mem DNSRecord.id h1
      · exact ih (List.nodup_cons.1 hnd2).2 r h1 s h2 heq

/-! ### The invariant forces an empty diff -/

theorem part1Actions_eq_nil (byIp : List (String × List DNSRecord))
    (healthy : List String) (cfg : List (String × Nat))
    (h : ∀ p ∈ cfg,
        (memStr healthy p.1 = true → (groupOf byIp p.1).length = p.2) ∧
        (memStr healthy p.1 = false → groupOf byIp p.1 = [])) :
    part1Actions byIp healthy cfg = [] := by
  induction cfg with
  | nil => rfl
  | cons p rest ih =>
    obtain ⟨k, w⟩ := p
    rw [part1Actions, ih (fun q hq => h q (List.mem_cons_of_mem _ hq)), List.append_nil]
    have hk := h (k, w) (List.mem_cons_self _ _)
    unfold actionsForIp
    by_cases hh : memStr healthy k
    · rw [hh]
      have hc : (groupOf byIp k).length = w := hk.1 hh
      simp [hc]
    · rw [Bool.not_eq_true] at hh
      rw [hh]
      have hg : groupOf byIp k = [] := hk.2 hh
      simp [hg]

theorem part2Actions_eq_nil (ck : List String)
    (byIp : List (String × List DNSRecord))
    (h : ∀ p ∈ byIp, memStr ck p.1 = true ∨ p.2 = []) :
    part2Actions ck byIp = [] := by
  induction byIp with
  | nil => rfl
  | cons p rest ih =>
    obtain ⟨k, rs⟩ := p
    rw [part2Actions, ih (fun q hq => h q (List.mem_cons_of_mem _ hq)), List.append_nil]
    rcases h (k, rs) (List.mem_cons_self _ _) with h1 | h1
    · simp [h1]
    · simp only at h1
      simp [h1]

theorem syncActions_eq_nil_of_invariant (cfg : List (String × Nat))
    (healthy : List String) (existing : List DNSRecord)
    (hinv : invariantHolds cfg healthy existing) :
    syncActions cfg healthy existing = [] := by
  obtain ⟨h1, h2⟩ := hinv
  rw [syncActions]
  have hp1 : part1Actions (existing_by_ip existing) healthy cfg = [] := by
    apply part1Actions_eq_nil
    intro p hp
    constructor
    · intro hh
      rw [length_groupOf_existing_by_ip]
      exact h1 p hp ((memStr_iff _ _).1 hh)
    · intro hh
      rw [groupOf_existing_by_ip]
      rw [List.filter_eq_nil_iff]
      intro r hr hbeq
      have hc : r.content = p.1 := by simpa using hbeq
      obtain ⟨q, hq, hcq, hhl⟩ := h2 r hr
      have hph : p.1 ∈ healthy := by
        rw [hc.symm.trans hcq]
        exact hhl
      exact (memStr_eq_false_iff _ _).1 hh hph
  have hp2 : part2Actions (cfg.map Prod.fst) (existing_by_ip existing) = [] := by
    apply part2Actions_eq_nil
    intro p hp
    by_cases hrs : p.2 = []
    · exact Or.inr hrs
    · left
      obtain ⟨r, hr⟩ := List.exists_mem_of_ne_nil p.2 hrs
      have hcont : r.content = p.1 := homog_existing_by_ip existing p hp r hr
      have hrex : r ∈ existing := mem_of_mem_group_existing_by_ip existing p hp r hr
      obtain ⟨q, hq, hcq, hhl⟩ := h2 r hrex
      apply (memStr_iff _ _).2
      rw [← hcont, hcq]
      exact List.mem_map_of_mem Prod.fst hq
  rw [hp1, hp2]
  rfl

/-! ### Effect of executing the actions -/

theorem removeByIds_keep_all (ids : List String) (l : List DNSRecord)
    (h : ∀ r ∈ l, memStr ids r.id = false) :
    removeByIds ids l = l := by
  induction l with
  | nil => rfl
  | cons r rest ih =>
    rw [removeByIds, h r (List.mem_cons_self _ _)]
    simp only [Bool.false_eq_true, if_false]
    rw [ih (fun s hs => h s (List.mem_cons_of_mem _ hs))]

theorem removeByIds_remove_all (ids : List String) (l : List DNSRecord)
    (h : ∀ r ∈ l, memStr ids r.id = true) :
    removeByIds ids l = [] := by
  induction l with
  | nil => rfl
  | cons r rest ih =>
    rw [removeByIds, h r (List.mem_cons_self _ _)]
    simp only [if_true]
    exact ih (fun s hs => h s (List.mem_cons_of_mem _ hs))

theorem filter_removeByIds (ids : List String) (l : List DNSRecord)
    (p : DNSRecord → Bool) :
    (removeByIds ids l).filter p = removeByIds ids (l.filter p) := by
  induction l with
  | nil => rfl
  | cons r rest ih =>
    by_cases hm : memStr ids r.id
    · by_cases hp : p r
      · simp [removeByIds, List.filter_cons, hm, hp, ih]
      · simp [removeByIds, List.filter_cons, hm, hp, ih]
    · rw [Bool.not_eq_true] at hm
      by_cases hp : p r
      · simp [removeByIds, List.filter_cons, hm, hp, ih]
      · simp [removeByIds, List.filter_cons, hm, hp, ih]

/-- A no-duplicate list from which exactly the members of its prefix of
length `k` are removed becomes its suffix from `k`. -/
theorem removeByIds_eq_drop (ids : List String) :
    ∀ (G : List DNSRecord) (k : Nat), G.Nodup →
      (∀ r ∈ G, (memStr ids r.id = true ↔ r ∈ G.take k)) →
      removeByIds ids G = G.drop k := by
  intro G
  induction G with
  | nil => intro k _ _; simp [removeByIds]
  | cons x xs ih =>
    intro k h hmem
    cases k with
    | zero =>
      rw [List.drop_zero]
      apply removeByIds_keep_all
      intro r hr
      have := hmem r hr
      rw [List.take_zero] at this
      simp only [List.not_mem_nil, iff_false] at this
      cases hb : memStr ids r.id
      · rfl
      · exact absurd hb this
    | succ m =>
      have hx : x ∉ xs := (List.nodup_cons.1 h).1
      have hxs : xs.Nodup := (List.nodup_cons.1 h).2
      have hxid : memStr ids x.id = true := by
        rw [hmem x (List.mem_cons_self _ _), List.take_succ_cons]
        exact List.mem_cons_self _ _
      rw [removeByIds, hxid, if_pos rfl, List.drop_succ_cons]
      apply ih m hxs
      intro r hr
      have hne : r ≠ x := fun he => hx (he ▸ hr)
      rw [hmem r (List.mem_cons_of_mem _ hr), List.take_succ_cons]
      simp [List.mem_cons, hne]

/-- Membership of a record of the listing among the deleted ids coincides
with its membership among the deleted records, when ids are unique. -/
theorem memStr_removedIds_iff (cfg : List (String × Nat)) (healthy : List String)
    (existing : List DNSRecord)
    (hids : (existing.map DNSRecord.id).Nodup)
    (r : DNSRecord) (hr : r ∈ existing) :
    memStr ((removedRecords (syncActions cfg healthy existing)).map DNSRecord.id) r.id = true
      ↔ r ∈ removedRecords (syncActions cfg healthy existing) := by
  constructor
  · intro h
    obtain ⟨s, hs, hsid⟩ := List.mem_map.1 ((memStr_iff _ _).1 h)
    have hsex : s ∈ existing := mem_removedRecords_syncActions cfg healthy existing s hs
    have heq : s = r := eq_of_id_eq existing hids s hsex r hr hsid
    rw [← heq]
    exact hs
  · intro h
    exact (memStr_iff _ _).2 (List.mem_map_of_mem DNSRecord.id h)

theorem mem_removedRecords_iff_mem_removesFor (ip : String) (acts : List DNSAction)
    (r : DNSRecord) (hc : r.content = ip) :
    r ∈ removedRecords acts ↔ r ∈ removesFor ip acts := by
  rw [removesFor_eq_filter_removedRecords]
  constructor
  · intro h
    exact List.mem_filter.2 ⟨h, by simp [hc]⟩
  · intro h
    exact (List.mem_filter.1 h).1

theorem length_filter_content_eq (l : List DNSRecord) (ip : String) :
    (l.filter (fun r => r.content == ip)).length
      = ((l.map DNSRecord.content).filter (fun k => k == ip)).length := by
  induction l with
  | nil => rfl
  | cons r rest ih =>
    by_cases h : r.content = ip
    · simp [List.filter_cons, h, ih]
    · simp [List.filter_cons, h, ih]

theorem mem_removeByIds (ids : List String) (l : List DNSRecord) (r : DNSRecord)
    (hr : r ∈ removeByIds ids l) : r ∈ l ∧ memStr ids r.id = false := by
  induction l with
  | nil => simp [removeByIds] at hr
  | cons x xs ih =>
    by_cases hm : memStr ids x.id
    · rw [removeByIds, if_pos hm] at hr
      obtain ⟨h1, h2⟩ := ih hr
      exact ⟨List.mem_cons_of_mem _ h1, h2⟩
    · rw [removeByIds, if_neg hm] at hr
      rcases List.mem_cons.1 hr with h | h
      · rw [Bool.not_eq_true] at hm
        rw [h]
        exact ⟨List.mem_cons_self _ _, hm⟩
      · obtain ⟨h1, h2⟩ := ih h
        exact ⟨List.mem_cons_of_mem _ h1, h2⟩

theorem kept_group_eq_drop (cfg : List (String × Nat)) (healthy : List String)
    (existing : List DNSRecord) (ip : String) (w : Nat)
    (hnd : (cfg.map Prod.fst).Nodup) (hmem : (ip, w) ∈ cfg)
    (hh : memStr healthy ip = true)
    (hids : (existing.map DNSRecord.id).Nodup) :
    removeByIds ((removedRecords (syncActions cfg healthy existing)).map DNSRecord.id)
        (existing.filter (fun r => r.content == ip))
      = (existing.filter (fun r => r.content == ip)).drop
          (existing_counts existing ip - w) := by
  apply removeByIds_eq_drop
  · exact List.Nodup.filter _ (List.Nodup.of_map _ hids)
  · intro r hr
    have hrex : r ∈ existing := List.mem_of_mem_filter hr
    have hrc : r.content = ip := by
      have := List.of_mem_filter hr
      simpa using this
    rw [memStr_removedIds_iff cfg healthy existing hids r hrex,
      mem_removedRecords_iff_mem_removesFor ip _ r hrc,
      removesFor_syncActions_healthy cfg healthy existing ip w hnd hmem hh]

theorem counts_applyActions_healthy (cfg : List (String × Nat)) (healthy : List String)
    (existing newRecs : List DNSRecord) (ip : String) (w : Nat)
    (hnd : (cfg.map Prod.fst).Nodup) (hmem : (ip, w) ∈ cfg)
    (hh : memStr healthy ip = true)
    (hids : (existing.map DNSRecord.id).Nodup)
    (hnew : newRecs.map DNSRecord.content = createdIps (syncActions cfg healthy existing)) :
    existing_counts (applyActions existing (syncActions cfg healthy existing) newRecs) ip
      = w := by
  unfold applyActions existing_counts
  rw [List.filter_append, List.length_append, filter_removeByIds,
    kept_group_eq_drop cfg healthy existing ip w hnd hmem hh hids,
    List.length_drop]
  have hlen2 : (newRecs.filter (fun r => r.content == ip)).length
      = w - existing_counts existing ip := by
    rw [length_filter_content_eq, hnew, ← createsFor_eq_length_filter_createdIps,
      createsFor_syncActions cfg healthy existing ip w hnd hmem hh]
  rw [hlen2]
  show existing_counts existing ip - (existing_counts existing ip - w)
      + (w - existing_counts existing ip) = w
  rcases Nat.le_total (existing_counts existing ip) w with hle | hle
  · rw [Nat.sub_eq_zero_of_le hle, Nat.sub_zero, Nat.add_sub_cancel' hle]
  · rw [Nat.sub_sub_self hle, Nat.sub_eq_zero_of_le hle, Nat.add_zero]

theorem content_healthy_configured_applyActions (cfg : List (String × Nat))
    (healthy : List String) (existing newRecs : List DNSRecord)
    (hnd : (cfg.map Prod.fst).Nodup)
    (hids : (existing.map DNSRecord.id).Nodup)
    (hnew : newRecs.map DNSRecord.content = createdIps (syncActions cfg healthy existing)) :
    ∀ r ∈ applyActions existing (syncActions cfg healthy existing) newRecs,
      ∃ p ∈ cfg, r.content = p.1 ∧ p.1 ∈ healthy := by
  intro r hrK
  rcases List.mem_append.1 hrK with hkept | hnewm
  · obtain ⟨hrex, hm⟩ := mem_removeByIds _ _ r hkept
    by_cases hc : r.content ∈ cfg.map Prod.fst
    · obtain ⟨p, hp, hfst⟩ := List.mem_map.1 hc
      by_cases hhl : memStr healthy p.1
      · exact ⟨p, hp, hfst.symm, (memStr_iff _ _).1 hhl⟩
      · exfalso
        rw [Bool.not_eq_true] at hhl
        have hmem2 : (p.1, p.2) ∈ cfg := by rw [Prod.mk.eta]; exact hp
        have hrem := removesFor_syncActions_unhealthy cfg healthy existing p.1 p.2
          hnd hmem2 hhl
        have hrmem : r ∈ removesFor p.1 (syncActions cfg healthy existing) := by
          rw [hrem]
          exact List.mem_filter.2 ⟨hrex, by simp [hfst.symm]⟩
        have hcontra : memStr ((removedRecords
            (syncActions cfg healthy existing)).map DNSRecord.id) r.id = true := by
          rw [memStr_removedIds_iff cfg healthy existing hids r hrex,
            mem_removedRecords_iff_mem_removesFor p.1 _ r hfst.symm]
          exact hrmem
        rw [hm] at hcontra
        simp at hcontra
    · exfalso
      have hrem := removesFor_syncActions_unconfigured cfg healthy existing r.content hc
      have hrmem : r ∈ removesFor r.content (syncActions cfg healthy existing) := by
        rw [hrem]
        exact List.mem_filter.2 ⟨hrex, by simp⟩
      have hcontra : memStr ((removedRecords
          (syncActions cfg healthy existing)).map DNSRecord.id) r.id = true := by
        rw [memStr_removedIds_iff cfg healthy existing hids r hrex,
          mem_removedRecords_iff_mem_removesFor r.content _ r rfl]
        exact hrmem
      rw [hm] at hcontra
      simp at hcontra
  · have hc : r.content ∈ createdIps (syncActions cfg healthy existing) := by
      rw [← hnew]
      exact List.mem_map_of_mem DNSRecord.content hnewm
    obtain ⟨w2, hw2, hh2⟩ := mem_createdIps_syncActions cfg healthy existing r.content hc
    exact ⟨(r.content, w2), hw2, rfl, (memStr_iff _ _).1 hh2⟩

/-- C2: the diff is empty whenever the listing already satisfies the
section-3 invariant (idempotence), and applying the computed creates and
deletes to the listing (deletes act by record id, creates append records
with the created contents) makes the re-run diff empty (one-step
convergence, assuming distinct provider record ids and distinct configured
keys, as a Python dict has). -/
theorem idempotence_and_convergence :
    (∀ cfg healthy existing, invariantHolds cfg healthy existing →
        syncActions cfg healthy existing = []) ∧
    (∀ (cfg : List (String × Nat)) (healthy : List String)
        (existing newRecs : List DNSRecord),
        (cfg.map Prod.fst).Nodup →
        (existing.map DNSRecord.id).Nodup →
        newRecs.map DNSRecord.content = createdIps (syncActions cfg healthy existing) →
        syncActions cfg healthy
            (applyActions existing (syncActions cfg healthy existing) newRecs) = []) := by
  constructor
  · exact syncActions_eq_nil_of_invariant
  · intro cfg healthy existing newRecs hnd hids hnew
    apply syncActions_eq_nil_of_invariant
    constructor
    · intro p hp hph
      have hmem2 : (p.1, p.2) ∈ cfg := by rw [Prod.mk.eta]; exact hp
      have hhb : memStr healthy p.1 = true := (memStr_iff _ _).2 hph
      exact counts_applyActions_healthy cfg healthy existing newRecs p.1 p.2
        hnd hmem2 hhb hids hnew
    · exact content_healthy_configured_applyActions cfg healthy existing newRecs
        hnd hids hnew

theorem idempotence_and_convergence_witness :
    (invariantHolds [("10.0.0.1", 1)] ["10.0.0.1"]
        [⟨"ra", "sub.example.com", "10.0.0.1", 120, false⟩] ∧
      syncActions [("10.0.0.1", 1)] ["10.0.0.1"]
        [⟨"ra", "sub.example.com", "10.0.0.1", 120, false⟩] = []) ∧
    syncActions [("10.0.0.1", 2)] ["10.0.0.1"]
        (applyActions [⟨"rb", "sub.example.com", "10.0.0.9", 120, false⟩]
          (syncActions [("10.0.0.1", 2)] ["10.0.0.1"]
            [⟨"rb", "sub.example.com", "10.0.0.9", 120, false⟩])
          [⟨"n1", "sub.example.com", "10.0.0.1", 120, false⟩,
           ⟨"n2", "sub.example.com", "10.0.0.1", 120, false⟩]) = [] :=
  ⟨⟨by unfold invariantHolds; decide,
    idempotence_and_convergence.1 [("10.0.0.1", 1)] ["10.0.0.1"]
      [⟨"ra", "sub.example.com", "10.0.0.1", 120, false⟩] (by unfold invariantHolds; decide)⟩,
   idempotence_and_convergence.2 [("10.0.0.1", 2)] ["10.0.0.1"]
     [⟨"rb", "sub.example.com", "10.0.0.9", 120, false⟩]
     [⟨"n1", "sub.example.com", "10.0.0.1", 120, false⟩,
      ⟨"n2", "sub.example.com", "10.0.0.1", 120, false⟩]
     (by decide) (by decide) (by decide)⟩

/-! ### Effectful model of the manager, the service, and the loop

The collaborators the repository calls out to (Cloudflare transport,
Remnawave client, Telegram notifier) are modelled as outcome oracles in an
environment: `none` means the call returns normally, `some e` means it
raises `e`.  Every provider mutation call and notifier call the embedded
code performs is recorded in a trace. -/

/-- A DNS provider mutation call (create_dns_record / delete_dns_record). -/
inductive Mutation where
  | createCall (zoneId name ip : String) (ttl : Nat) (proxied : Bool)
  | deleteCall (zoneId recordId : String)
deriving Repr, DecidableEq

/-- A notifier invocation (notify_dns_change / notify_dns_error payloads). -/
inductive NotifyEvent where
  | dnsChange (domain zoneName ip action : String)
  | dnsError (domain zoneName ip action errMsg : String)
deriving Repr, DecidableEq

/-- A node as returned by the Remnawave client (the fields the monitor
consumes; health is computed by the client collaborator). -/
structure RawNode where
  name : String
  address : String
deriving Repr, DecidableEq

/-- The NodeStatus objects check_all_nodes builds (address and health are
what the service reads). -/
structure NodeStatus where
  name : String
  address : String
  is_healthy : Bool
deriving Repr, DecidableEq

/-- Outcome oracles for the external collaborators plus the notifier
configuration flags of DNSManager. -/
structure SyncEnv where
  listRecords : String → String → Except String (List DNSRecord)
  mutationOutcome : Mutation → Option String
  notifierPresent : Bool
  notify_dns_changes : Bool
  notify_errors : Bool
  changeOutcome : NotifyEvent → Option String
  errorOutcome : NotifyEvent → Option String
  zoneListOutcome : String → Except String (Option String)
  getNodesOutcome : Except String (List RawNode)
  is_node_healthy : RawNode → Bool

/-- Result of running a piece of the cycle: its return value or escaped
exception, the provider mutation calls attempted, and the notifier calls
attempted, each in order. -/
structure Eff (α : Type) where
  result : Except String α
  calls : List Mutation
  events : List NotifyEvent

/-- The except-clause of _add_record (lines 107-115 of dns_manager.py):
log, optionally notify a dnsError with action add, return False; an
exception from the error notifier itself escapes the handler. -/
def addFailure (env : SyncEnv) (domain zone_name ip e : String)
    (calls : List Mutation) (events : List NotifyEvent) : Eff Bool :=
  if env.notifierPresent && env.notify_errors then
    let ev := NotifyEvent.dnsError domain zone_name ip "add" e
    match env.errorOutcome ev with
    | none => ⟨Except.ok false, calls, events ++ [ev]⟩
    | some e2 => ⟨Except.error e2, calls, events ++ [ev]⟩
  else ⟨Except.ok false, calls, events⟩

/-- _add_record (lines 92-115): try create_dns_record, then optionally
notify the change; any exception in the try-body lands in the
except-clause, which reports failure by returning False. -/
def _add_record (env : SyncEnv) (zone_id full_domain domain zone_name ip : String)
    (ttl : Nat) (proxied : Bool) : Eff Bool :=
  let call := Mutation.createCall zone_id full_domain ip ttl proxied
  match env.mutationOutcome call with
  | none =>
    if env.notifierPresent && env.notify_dns_changes then
      let ev := NotifyEvent.dnsChange domain zone_name ip "added"
      match env.changeOutcome ev with
      | none => ⟨Except.ok true, [call], [ev]⟩
      | some e => addFailure env domain zone_name ip e [call] [ev]
    else ⟨Except.ok true, [call], []⟩
  | some e => addFailure env domain zone_name ip e [call] []

/-- The except-clause of _remove_record (lines 129-137). -/
def removeFailure (env : SyncEnv) (domain zone_name ip e : String)
    (calls : List Mutation) (events : List NotifyEvent) : Eff Bool :=
  if env.notifierPresent && env.notify_errors then
    let ev := NotifyEvent.dnsError domain zone_name ip "remove" e
    match env.errorOutcome ev with
    | none => ⟨Except.ok false, calls, events ++ [ev]⟩
    | some e2 => ⟨Except.error e2, calls, events ++ [ev]⟩
  else ⟨Except.ok false, calls, events⟩

/-- _remove_record (lines 117-137): try delete_dns_record, then optionally
notify the change; exceptions in the try-body land in the except-clause. -/
def _remove_record (env : SyncEnv) (zone_id domain zone_name ip : String)
    (record : DNSRecord) : Eff Bool :=
  let call := Mutation.deleteCall zone_id record.id
  match env.mutationOutcome call with
  | none =>
    if env.notifierPresent && env.notify_dns_changes then
      let ev := NotifyEvent.dnsChange domain zone_name ip "removed"
      match env.changeOutcome ev with
      | none => ⟨Except.ok true, [call], [ev]⟩
      | some e => removeFailure env domain zone_name ip e [call] [ev]
    else ⟨Except.ok true, [call], []⟩
  | some e => removeFailure env domain zone_name ip e [call] []

/-- Dispatch of one computed request to the helper executing it; the
record removal passes the IP of the record, as all call sites do. -/
def execAction (env : SyncEnv) (zone_id zone_name domain full_domain : String)
    (ttl : Nat) (proxied : Bool) : DNSAction → Eff Bool
  | DNSAction.create ip =>
    _add_record env zone_id full_domain domain zone_name ip ttl proxied
  | DNSAction.remove r =>
    _remove_record env zone_id domain zone_name r.content r

/-- Sequential execution of the computed requests, as the two loops of
sync_dns_records perform it: each request runs in order; a raising request
(only possible from the error notifier) aborts the remainder, while a
request that merely returns False does not. -/
def execActions (env : SyncEnv) (zone_id zone_name domain full_domain : String)
    (ttl : Nat) (proxied : Bool) : List DNSAction → Eff Unit
  | [] => ⟨Except.ok (), [], []⟩
  | a :: rest =>
    let s := execAction env zone_id zone_name domain full_domain ttl proxied a
    match s.result with
    | Except.error e => ⟨Except.error e, s.calls, s.events⟩
    | Except.ok _ =>
      let t := execActions env zone_id zone_name domain full_domain ttl proxied rest
      ⟨t.result, s.calls ++ t.calls, s.events ++ t.events⟩

/-- sync_dns_records (lines 25-90): list the existing A-records of the
subdomain (an exception here escapes the method uncaught), then issue the
requests of the diff in execution order. -/
def sync_dns_records (env : SyncEnv) (zone_id zone_name domain : String)
    (configured_ips : List (String × Nat)) (healthy_ips : List String)
    (ttl : Nat) (proxied : Bool) : Eff Unit :=
  let full_domain := zone_name ++ "." ++ domain
  match env.listRecords zone_id full_domain with
  | Except.error e => ⟨Except.error e, [], []⟩
  | Except.ok existing_records =>
    execActions env zone_id zone_name domain full_domain ttl proxied
      (syncActions configured_ips healthy_ips existing_records)

/-- The two runtime shapes a zone config ips value can have. -/
inductive ConfiguredIps where
  | ipList (ips : List String)
  | ipDict (entries : List (String × Nat))
deriving Repr, DecidableEq

/-- The Python-typed entry point: _sync_zone passes zone_config ips
through unchanged; an IP-to-weight mapping runs the sync, while a plain
list reaches configured_ips.keys() at line 47 of dns_manager.py and raises
AttributeError — after the listing call of line 37, which runs first. -/
def sync_dns_records_py (env : SyncEnv) (zone_id zone_name domain : String)
    (configured_ips : ConfiguredIps) (healthy_ips : List String)
    (ttl : Nat) (proxied : Bool) : Eff Unit :=
  match configured_ips with
  | ConfiguredIps.ipDict entries =>
    sync_dns_records env zone_id zone_name domain entries healthy_ips ttl proxied
  | ConfiguredIps.ipList _ =>
    match env.listRecords zone_id (zone_name ++ "." ++ domain) with
    | Except.error e => ⟨Except.error e, [], []⟩
    | Except.ok _ =>
      ⟨Except.error "AttributeError: list object has no attribute keys", [], []⟩

/-- One zone block of the config. -/
structure ZoneConfigEntry where
  name : String
  ips : ConfiguredIps
  ttl : Nat
  proxied : Bool
deriving Repr, DecidableEq

/-- One domain block of the config. -/
structure DomainConfig where
  domain : String
  zones : List ZoneConfigEntry
deriving Repr, DecidableEq

/-- CloudflareClient.get_zone_id_by_domain (client.py lines 112-124): the
id of the first zone the provider lists, None when the provider lists no
zone, and None with the exception swallowed when the listing raises. -/
def get_zone_id_by_domain (env : SyncEnv) (domain : String) : Option String :=
  match env.zoneListOutcome domain with
  | Except.error _ => none
  | Except.ok z => z

/-- Result of one _get_zone_id call: the returned id (None for a Python
None), the cache afterwards, and whether the provider was consulted. -/
structure ZoneIdResult where
  zone_id : Option String
  cache : List (String × String)
  providerCalled : Bool
deriving Repr, DecidableEq

/-- _get_zone_id (monitoring_service.py lines 119-127): serve from the
cache when present; otherwise ask the provider, caching the id only when
it is truthy (a non-empty string). -/
def _get_zone_id (env : SyncEnv) (cache : List (String × String))
    (domain : String) : ZoneIdResult :=
  match cache.find? (fun q => q.1 == domain) with
  | some q => ⟨some q.2, cache, false⟩
  | none =>
    match get_zone_id_by_domain env domain with
    | some zid =>
      if zid = "" then ⟨some zid, cache, true⟩
      else ⟨some zid, cache ++ [(domain, zid)], true⟩
    | none => ⟨none, cache, true⟩

/-- The inner zone loop of _sync_all_zones: each zone of the domain is
synced in order; an exception escaping _sync_zone aborts the rest. -/
def syncZonesForDomain (env : SyncEnv) (domain zone_id : String)
    (healthy : List String) : List ZoneConfigEntry → Eff Unit
  | [] => ⟨Except.ok (), [], []⟩
  | z :: rest =>
    let s := sync_dns_records_py env zone_id z.name domain z.ips healthy z.ttl z.proxied
    match s.result with
    | Except.error e => ⟨Except.error e, s.calls, s.events⟩
    | Except.ok _ =>
      let t := syncZonesForDomain env domain zone_id healthy rest
      ⟨t.result, s.calls ++ t.calls, s.events ++ t.events⟩

/-- _sync_all_zones (lines 106-117): resolve each domain, skipping (with a
warning) domains whose zone id is falsy, then sync its zones; nothing in
this method catches exceptions raised by the zone syncs. -/
def _sync_all_zones (env : SyncEnv) (healthy : List String) :
    List (String × String) → List DomainConfig → Eff Unit × List (String × String)
  | cache, [] => (⟨Except.ok (), [], []⟩, cache)
  | cache, d :: rest =>
    let zr := _get_zone_id env cache d.domain
    match zr.zone_id with
    | none => _sync_all_zones env healthy zr.cache rest
    | some zid =>
      if zid = "" then _sync_all_zones env healthy zr.cache rest
      else
        let s := syncZonesForDomain env d.domain zid healthy d.zones
        match s.result with
        | Except.error e => (⟨Except.error e, s.calls, s.events⟩, zr.cache)
        | Except.ok _ =>
          let t := _sync_all_zones env healthy zr.cache rest
          (⟨t.1.result, s.calls ++ t.1.calls, s.events ++ t.1.events⟩, t.2)

/-- The ips value of a zone as a key list (what set.update collects from
it in _get_all_configured_ips). -/
def ipsKeys : ConfiguredIps → List String
  | ConfiguredIps.ipList l => l
  | ConfiguredIps.ipDict m => m.map Prod.fst

/-- _get_all_configured_ips (lines 97-104): the union of every configured
zone ips value; only membership in it is ever used. -/
def _get_all_configured_ips (domains : List DomainConfig) : List String :=
  domains.foldr (fun d acc => d.zones.foldr (fun z acc2 => ipsKeys z.ips ++ acc2) acc) []

/-- NodeMonitor.check_all_nodes (monitor.py lines 26-61): build a
NodeStatus per node from the client; an exception from the client is
logged and re-raised. -/
def check_all_nodes (env : SyncEnv) : Except String (List NodeStatus) :=
  match env.getNodesOutcome with
  | Except.error e => Except.error e
  | Except.ok nodes =>
    Except.ok (nodes.map (fun n => ⟨n.name, n.address, env.is_node_healthy n⟩))

/-- perform_health_check (monitoring_service.py lines 55-95): snapshot the
fleet first (computing the configured-ip set beforehand is pure), restrict
to configured then healthy addresses, and only afterwards touch DNS via
_sync_all_zones; the surrounding except clause logs and re-raises, so any
failure escapes to the loop. -/
def perform_health_check (env : SyncEnv) (domains : List DomainConfig)
    (cache : List (String × String)) : Eff Unit × List (String × String) :=
  let configured_ips := _get_all_configured_ips domains
  match check_all_nodes env with
  | Except.error e => (⟨Except.error e, [], []⟩, cache)
  | Except.ok all_nodes =>
    let configured_nodes := all_nodes.filter (fun n => memStr configured_ips n.address)
    let healthy_addresses :=
      (configured_nodes.filter (fun n => n.is_healthy)).map (fun n => n.address)
    _sync_all_zones env healthy_addresses cache domains

/-- One iteration of run_monitoring_loop (main module lines 23-39): the
cycle runs; on success the loop sleeps the interval and continues, and on
any escaped exception it logs, sleeps the interval, and continues as well
(the returned flag says whether the loop keeps running). -/
def run_monitoring_loop_step (env : SyncEnv) (domains : List DomainConfig)
    (cache : List (String × String)) : Bool × Eff Unit × List (String × String) :=
  let r := perform_health_check env domains cache
  match r.1.result with
  | Except.ok _ => (true, r.1, r.2)
  | Except.error _ => (true, r.1, r.2)

/-- The provider mutation a computed request corresponds to. -/
def actionCall (zone_id full_domain : String) (ttl : Nat) (proxied : Bool) :
    DNSAction → Mutation
  | DNSAction.create ip => Mutation.createCall zone_id full_domain ip ttl proxied
  | DNSAction.remove r => Mutation.deleteCall zone_id r.id

/-- The full mutation trace a request list generates when every request is
attempted. -/
def actionCalls (zone_id full_domain : String) (ttl : Nat) (proxied : Bool)
    (acts : List DNSAction) : List Mutation :=
  acts.map (actionCall zone_id full_domain ttl proxied)

/-- A concrete environment for instantiating the effectful theorems. -/
def envBase : SyncEnv where
  listRecords := fun _ _ => Except.ok []
  mutationOutcome := fun _ => none
  notifierPresent := false
  notify_dns_changes := true
  notify_errors := true
  changeOutcome := fun _ => none
  errorOutcome := fun _ => none
  zoneListOutcome := fun _ => Except.ok (some "zone1")
  getNodesOutcome := Except.ok []
  is_node_healthy := fun _ => true

/-- C3: when the health snapshot raises, the cycle performs zero provider
mutation calls and zero notifier calls, the failure surfaces before any
zone syncing (the whole sync phase is skipped and the cache untouched),
and the loop still sleeps and retries on the next tick. -/
theorem snapshot_failure_no_mutations (env : SyncEnv) (domains : List DomainConfig)
    (cache : List (String × String)) (e : String)
    (herr : env.getNodesOutcome = Except.error e) :
    perform_health_check env domains cache = (⟨Except.error e, [], []⟩, cache) ∧
    (run_monitoring_loop_step env domains cache).1 = true := by
  have hc : check_all_nodes env = Except.error e := by
    unfold check_all_nodes
    rw [herr]
  have h1 : perform_health_check env domains cache = (⟨Except.error e, [], []⟩, cache) := by
    unfold perform_health_check
    rw [hc]
  refine ⟨h1, ?_⟩
  unfold run_monitoring_loop_step
  rw [h1]

theorem snapshot_failure_no_mutations_witness :
    perform_health_check { envBase with getNodesOutcome := Except.error "boom" } [] []
        = (⟨Except.error "boom", [], []⟩, []) ∧
    (run_monitoring_loop_step { envBase with getNodesOutcome := Except.error "boom" }
        [] []).1 = true :=
  snapshot_failure_no_mutations
    { envBase with getNodesOutcome := Except.error "boom" } [] [] "boom" rfl

theorem find?_append_of_none {α : Type} (l1 l2 : List α) (p : α → Bool)
    (h : l1.find? p = none) : (l1 ++ l2).find? p = l2.find? p := by
  induction l1 with
  | nil => simp
  | cons x xs ih =>
    cases hp : p x with
    | true =>
      rw [List.find?_cons_of_pos _ hp] at h
      cases h
    | false =>
      have hp2 : ¬ p x = true := by rw [hp]; simp
      rw [List.find?_cons_of_neg _ hp2] at h
      rw [List.cons_append, List.find?_cons_of_neg _ hp2]
      exact ih h

/-- C8: zone-id resolution caches only successes: a cached domain is
answered from the cache without a provider call; a fresh resolution that
returns a usable (non-empty) id stores it and every later resolution of
that domain is answered from the cache without a provider call; a failed
resolution (provider error or no zone, both of which
get_zone_id_by_domain turns into None) returns None and leaves the cache
unchanged, so the next cycle consults the provider again. -/
theorem zone_id_cache_success_only :
    (∀ (env : SyncEnv) (cache : List (String × String)) (domain : String)
        (q : String × String),
        cache.find? (fun p => p.1 == domain) = some q →
        _get_zone_id env cache domain = ⟨some q.2, cache, false⟩) ∧
    (∀ (env : SyncEnv) (cache : List (String × String)) (domain zid : String),
        cache.find? (fun p => p.1 == domain) = none →
        get_zone_id_by_domain env domain = some zid → zid ≠ "" →
        _get_zone_id env cache domain = ⟨some zid, cache ++ [(domain, zid)], true⟩ ∧
        _get_zone_id env (cache ++ [(domain, zid)]) domain
          = ⟨some zid, cache ++ [(domain, zid)], false⟩) ∧
    (∀ (env : SyncEnv) (cache : List (String × String)) (domain : String),
        cache.find? (fun p => p.1 == domain) = none →
        get_zone_id_by_domain env domain = none →
        _get_zone_id env cache domain = ⟨none, cache, true⟩) := by
  refine ⟨?_, ?_, ?_⟩
  · intro env cache domain q hq
    unfold _get_zone_id
    rw [hq]
  · intro env cache domain zid hnone hz hne
    constructor
    · unfold _get_zone_id
      rw [hnone, hz]
      simp [hne]
    · have hfind : (cache ++ [(domain, zid)]).find? (fun p => p.1 == domain)
          = some (domain, zid) := by
        rw [find?_append_of_none _ _ _ hnone]
        simp
      unfold _get_zone_id
      rw [hfind]
  · intro env cache domain hnone hz
    unfold _get_zone_id
    rw [hnone, hz]

theorem zone_id_cache_success_only_witness :
    _get_zone_id envBase [("example.com", "z1")] "example.com"
        = ⟨some "z1", [("example.com", "z1")], false⟩ ∧
    (_get_zone_id envBase [] "example.com"
        = ⟨some "zone1", [("example.com", "zone1")], true⟩ ∧
      _get_zone_id envBase [("example.com", "zone1")] "example.com"
        = ⟨some "zone1", [("example.com", "zone1")], false⟩) ∧
    _get_zone_id { envBase with zoneListOutcome := fun _ => Except.error "ProviderError" }
        [] "example.com"
        = ⟨none, [], true⟩ :=
  ⟨zone_id_cache_success_only.1 envBase [("example.com", "z1")] "example.com"
      ("example.com", "z1") (by decide),
   zone_id_cache_success_only.2.1 envBase [] "example.com" "zone1"
     (by decide) rfl (by decide),
   zone_id_cache_success_only.2.2
     { envBase with zoneListOutcome := fun _ => Except.error "ProviderError" }
     [] "example.com" (by decide) rfl⟩

/-- C6 counterexample: the same single healthy IP with no existing
records issues one create when configured as a weight-1 mapping, but
issues nothing (the sync errors out at the keys() call) when configured as
a plain list — so a plain list does not behave like the weight-1 mapping. -/
theorem plain_list_counterexample :
    (sync_dns_records_py envBase "z1" "sub" "example.com"
        (ConfiguredIps.ipList ["10.0.0.1"]) ["10.0.0.1"] 120 false).calls = [] ∧
    (sync_dns_records_py envBase "z1" "sub" "example.com"
        (ConfiguredIps.ipDict [("10.0.0.1", 1)]) ["10.0.0.1"] 120 false).calls
      = [Mutation.createCall "z1" "sub.example.com" "10.0.0.1" 120 false] ∧
    (sync_dns_records_py envBase "z1" "sub" "example.com"
          (ConfiguredIps.ipList ["10.0.0.1"]) ["10.0.0.1"] 120 false).calls
      ≠ (sync_dns_records_py envBase "z1" "sub" "example.com"
          (ConfiguredIps.ipDict [("10.0.0.1", 1)]) ["10.0.0.1"] 120 false).calls := by
  have h1 : (sync_dns_records_py envBase "z1" "sub" "example.com"
      (ConfiguredIps.ipList ["10.0.0.1"]) ["10.0.0.1"] 120 false).calls = [] := rfl
  have h2 : (sync_dns_records_py envBase "z1" "sub" "example.com"
      (ConfiguredIps.ipDict [("10.0.0.1", 1)]) ["10.0.0.1"] 120 false).calls
      = [Mutation.createCall "z1" "sub.example.com" "10.0.0.1" 120 false] := rfl
  refine ⟨h1, h2, ?_⟩
  rw [h1, h2]
  simp

/-- C6 (amended): a zone whose configured IPs are supplied as a plain list
is not treated as weight 1: the sync raises (AttributeError at the keys()
call when the listing succeeded, or the listing error itself) and issues
no create or delete request at all. -/
theorem plain_list_raises (env : SyncEnv) (zone_id zone_name domain : String)
    (ips healthy : List String) (ttl : Nat) (proxied : Bool) :
    (sync_dns_records_py env zone_id zone_name domain (ConfiguredIps.ipList ips)
        healthy ttl proxied).calls = [] ∧
    (sync_dns_records_py env zone_id zone_name domain (ConfiguredIps.ipList ips)
        healthy ttl proxied).events = [] ∧
    ∃ e, (sync_dns_records_py env zone_id zone_name domain (ConfiguredIps.ipList ips)
        healthy ttl proxied).result = Except.error e := by
  unfold sync_dns_records_py
  cases h : env.listRecords zone_id (zone_name ++ "." ++ domain) with
  | error e => exact ⟨rfl, rfl, e, rfl⟩
  | ok recs =>
    exact ⟨rfl, rfl, "AttributeError: list object has no attribute keys", rfl⟩

/-- Environment for the C7 counterexample: listing the first zone fails,
listing any other zone succeeds with no records. -/
def envC7 : SyncEnv :=
  { envBase with
    listRecords := fun _ name =>
      if name = "z1.example.com" then Except.error "ProviderError"
      else Except.ok [] }

/-- First zone of the C7 counterexample (its listing raises). -/
def zoneC7a : ZoneConfigEntry := ⟨"z1", ConfiguredIps.ipDict [("10.0.0.2", 1)], 120, false⟩

/-- Second zone of the C7 counterexample (it would get one create). -/
def zoneC7b : ZoneConfigEntry := ⟨"z2", ConfiguredIps.ipDict [("10.0.0.2", 1)], 120, false⟩

/-- C7 counterexample: with two zones under one domain, a provider error
while listing the records of the first zone aborts the cycle and the
second zone is never processed — its create is missing from the cycle
trace, though it is issued when the first zone is absent.  So a provider
error raised while listing one zone does prevent the remaining zones from
being processed. -/
theorem zone_error_blocks_rest_counterexample :
    (_sync_all_zones envC7 ["10.0.0.2"] [] [⟨"example.com", [zoneC7a, zoneC7b]⟩]).1.calls
        = [] ∧
    (_sync_all_zones envC7 ["10.0.0.2"] [] [⟨"example.com", [zoneC7b]⟩]).1.calls
        = [Mutation.createCall "zone1" "z2.example.com" "10.0.0.2" 120 false] :=
  ⟨rfl, rfl⟩

/-- C7 (amended): failures in zone-id resolution are contained — a domain
whose resolution yields no id is skipped with the cache untouched and the
remaining domains processed exactly as if it were absent (and theorem
per_action_failure_isolated shows mutation failures abort nothing) — but a
provider error raised while listing a zone propagates and aborts the
remaining zones of the cycle, as the counterexample shows. -/
theorem zone_resolution_failure_skips_domain (env : SyncEnv)
    (healthy : List String) (cache : List (String × String))
    (d : DomainConfig) (rest : List DomainConfig)
    (hfind : cache.find? (fun p => p.1 == d.domain) = none)
    (hres : get_zone_id_by_domain env d.domain = none) :
    _sync_all_zones env healthy cache (d :: rest)
      = _sync_all_zones env healthy cache rest := by
  have hz : _get_zone_id env cache d.domain = ⟨none, cache, true⟩ := by
    unfold _get_zone_id
    rw [hfind, hres]
  show (match (_get_zone_id env cache d.domain).zone_id with
    | none => _sync_all_zones env healthy (_get_zone_id env cache d.domain).cache rest
    | some zid =>
      if zid = "" then _sync_all_zones env healthy (_get_zone_id env cache d.domain).cache rest
      else
        let s := syncZonesForDomain env d.domain zid healthy d.zones
        match s.result with
        | Except.error e => (⟨Except.error e, s.calls, s.events⟩, (_get_zone_id env cache d.domain).cache)
        | Except.ok _ =>
          let t := _sync_all_zones env healthy (_get_zone_id env cache d.domain).cache rest
          (⟨t.1.result, s.calls ++ t.1.calls, s.events ++ t.1.events⟩, t.2))
      = _sync_all_zones env healthy cache rest
  rw [hz]

theorem zone_resolution_failure_skips_domain_witness :
    _sync_all_zones { envBase with zoneListOutcome := fun _ => Except.ok none }
        ["10.0.0.2"] [] [⟨"gone.example", [zoneC7b]⟩]
      = _sync_all_zones { envBase with zoneListOutcome := fun _ => Except.ok none }
        ["10.0.0.2"] [] [] :=
  zone_resolution_failure_skips_domain
    { envBase with zoneListOutcome := fun _ => Except.ok none }
    ["10.0.0.2"] [] ⟨"gone.example", [zoneC7b]⟩ [] rfl rfl

/-! ### Per-action containment -/

theorem addFailure_result_calls (env : SyncEnv) (d zn ip e : String)
    (calls : List Mutation) (events : List NotifyEvent)
    (herr : ∀ ev, env.errorOutcome ev = none) :
    (addFailure env d zn ip e calls events).result = Except.ok false ∧
    (addFailure env d zn ip e calls events).calls = calls := by
  unfold addFailure
  by_cases h : env.notifierPresent && env.notify_errors
  · rw [if_pos h]
    simp only [herr]
    exact ⟨trivial, trivial⟩
  · rw [if_neg h]
    exact ⟨rfl, rfl⟩

theorem removeFailure_result_calls (env : SyncEnv) (d zn ip e : String)
    (calls : List Mutation) (events : List NotifyEvent)
    (herr : ∀ ev, env.errorOutcome ev = none) :
    (removeFailure env d zn ip e calls events).result = Except.ok false ∧
    (removeFailure env d zn ip e calls events).calls = calls := by
  unfold removeFailure
  by_cases h : env.notifierPresent && env.notify_errors
  · rw [if_pos h]
    simp only [herr]
    exact ⟨trivial, trivial⟩
  · rw [if_neg h]
    exact ⟨rfl, rfl⟩

theorem _add_record_ok (env : SyncEnv) (z fd d zn ip : String) (ttl : Nat) (p : Bool)
    (herr : ∀ ev, env.errorOutcome ev = none) :
    (_add_record env z fd d zn ip ttl p).calls = [Mutation.createCall z fd ip ttl p] ∧
    ∃ b, (_add_record env z fd d zn ip ttl p).result = Except.ok b := by
  cases hm : env.mutationOutcome (Mutation.createCall z fd ip ttl p) with
  | some e =>
    obtain ⟨h1, h2⟩ := addFailure_result_calls env d zn ip e
      [Mutation.createCall z fd ip ttl p] [] herr
    constructor
    · simp only [_add_record, hm]
      exact h2
    · exact ⟨false, by simp only [_add_record, hm]; exact h1⟩
  | none =>
    by_cases hn : env.notifierPresent && env.notify_dns_changes
    · cases hc : env.changeOutcome (NotifyEvent.dnsChange d zn ip "added") with
      | none =>
        constructor
        · simp only [_add_record, hm, hn, if_true, hc]
        · exact ⟨true, by simp only [_add_record, hm, hn, if_true, hc]⟩
      | some e =>
        obtain ⟨h1, h2⟩ := addFailure_result_calls env d zn ip e
          [Mutation.createCall z fd ip ttl p] [NotifyEvent.dnsChange d zn ip "added"] herr
        constructor
        · simp only [_add_record, hm, hn, if_true, hc]
          exact h2
        · exact ⟨false, by simp only [_add_record, hm, hn, if_true, hc]; exact h1⟩
    · have hn2 : (env.notifierPresent && env.notify_dns_changes) = false := by
        rw [Bool.not_eq_true] at hn
        exact hn
      constructor
      · simp only [_add_record, hm, hn2, Bool.false_eq_true, if_false]
      · exact ⟨true, by simp only [_add_record, hm, hn2, Bool.false_eq_true, if_false]⟩

theorem _remove_record_ok (env : SyncEnv) (z d zn ip : String) (r : DNSRecord)
    (herr : ∀ ev, env.errorOutcome ev = none) :
    (_remove_record env z d zn ip r).calls = [Mutation.deleteCall z r.id] ∧
    ∃ b, (_remove_record env z d zn ip r).result = Except.ok b := by
  cases hm : env.mutationOutcome (Mutation.deleteCall z r.id) with
  | some e =>
    obtain ⟨h1, h2⟩ := removeFailure_result_calls env d zn ip e
      [Mutation.deleteCall z r.id] [] herr
    constructor
    · simp only [_remove_record, hm]
      exact h2
    · exact ⟨false, by simp only [_remove_record, hm]; exact h1⟩
  | none =>
    by_cases hn : env.notifierPresent && env.notify_dns_changes
    · cases hc : env.changeOutcome (NotifyEvent.dnsChange d zn ip "removed") with
      | none =>
        constructor
        · simp only [_remove_record, hm, hn, if_true, hc]
        · exact ⟨true, by simp only [_remove_record, hm, hn, if_true, hc]⟩
      | some e =>
        obtain ⟨h1, h2⟩ := removeFailure_result_calls env d zn ip e
          [Mutation.deleteCall z r.id] [NotifyEvent.dnsChange d zn ip "removed"] herr
        constructor
        · simp only [_remove_record, hm, hn, if_true, hc]
          exact h2
        · exact ⟨false, by simp only [_remove_record, hm, hn, if_true, hc]; exact h1⟩
    · have hn2 : (env.notifierPresent && env.notify_dns_changes) = false := by
        rw [Bool.not_eq_true] at hn
        exact hn
      constructor
      · simp only [_remove_record, hm, hn2, Bool.false_eq_true, if_false]
      · exact ⟨true, by simp only [_remove_record, hm, hn2, Bool.false_eq_true, if_false]⟩

theorem execActions_ok (env : SyncEnv) (z zn d fd : String) (ttl : Nat) (p : Bool)
    (herr : ∀ ev, env.errorOutcome ev = none) :
    ∀ acts, (execActions env z zn d fd ttl p acts).result = Except.ok () ∧
      (execActions env z zn d fd ttl p acts).calls = actionCalls z fd ttl p acts := by
  intro acts
  induction acts with
  | nil => exact ⟨rfl, rfl⟩
  | cons a rest ih =>
    have hstep : (execAction env z zn d fd ttl p a).calls = [actionCall z fd ttl p a] ∧
        ∃ b, (execAction env z zn d fd ttl p a).result = Except.ok b := by
      cases a with
      | create ip => exact _add_record_ok env z fd d zn ip ttl p herr
      | remove r => exact _remove_record_ok env z d zn r.content r herr
    obtain ⟨hc, b, hr⟩ := hstep
    constructor
    · simp only [execActions, hr]
      exact ih.1
    · simp only [execActions, hr, hc, ih.2, actionCalls, List.map_cons]
      rfl

theorem sync_dns_records_ok (env : SyncEnv) (z zn d : String)
    (entries : List (String × Nat)) (healthy : List String) (ttl : Nat) (p : Bool)
    (recs : List DNSRecord)
    (herr : ∀ ev, env.errorOutcome ev = none)
    (hlist : env.listRecords z (zn ++ "." ++ d) = Except.ok recs) :
    (sync_dns_records env z zn d entries healthy ttl p).result = Except.ok () ∧
    (sync_dns_records env z zn d entries healthy ttl p).calls
      = actionCalls z (zn ++ "." ++ d) ttl p (syncActions entries healthy recs) := by
  constructor
  · simp only [sync_dns_records, hlist]
    exact (execActions_ok env z zn d (zn ++ "." ++ d) ttl p herr _).1
  · simp only [sync_dns_records, hlist]
    exact (execActions_ok env z zn d (zn ++ "." ++ d) ttl p herr _).2

theorem sync_py_result_calls_eq (env1 env2 : SyncEnv)
    (hlist : env1.listRecords = env2.listRecords)
    (herr1 : ∀ ev, env1.errorOutcome ev = none)
    (herr2 : ∀ ev, env2.errorOutcome ev = none)
    (z zn d : String) (cfgips : ConfiguredIps) (hl : List String)
    (ttl : Nat) (p : Bool) :
    (sync_dns_records_py env1 z zn d cfgips hl ttl p).result
      = (sync_dns_records_py env2 z zn d cfgips hl ttl p).result ∧
    (sync_dns_records_py env1 z zn d cfgips hl ttl p).calls
      = (sync_dns_records_py env2 z zn d cfgips hl ttl p).calls := by
  cases cfgips with
  | ipList l =>
    cases h : env2.listRecords z (zn ++ "." ++ d) with
    | error e =>
      constructor <;> simp only [sync_dns_records_py, hlist, h]
    | ok recs =>
      constructor <;> simp only [sync_dns_records_py, hlist, h]
  | ipDict entries =>
    cases h : env2.listRecords z (zn ++ "." ++ d) with
    | error e =>
      constructor <;> simp only [sync_dns_records_py, sync_dns_records, hlist, h]
    | ok recs =>
      have h1 := sync_dns_records_ok env1 z zn d entries hl ttl p recs herr1
        (by rw [hlist]; exact h)
      have h2 := sync_dns_records_ok env2 z zn d entries hl ttl p recs herr2 h
      constructor
      · simp only [sync_dns_records_py]
        rw [h1.1, h2.1]
      · simp only [sync_dns_records_py]
        rw [h1.2, h2.2]

theorem syncZonesForDomain_eq (env1 env2 : SyncEnv)
    (hlist : env1.listRecords = env2.listRecords)
    (herr1 : ∀ ev, env1.errorOutcome ev = none)
    (herr2 : ∀ ev, env2.errorOutcome ev = none)
    (dom zid : String) (hl : List String) :
    ∀ zones,
      (syncZonesForDomain env1 dom zid hl zones).result
        = (syncZonesForDomain env2 dom zid hl zones).result ∧
      (syncZonesForDomain env1 dom zid hl zones).calls
        = (syncZonesForDomain env2 dom zid hl zones).calls := by
  intro zones
  induction zones with
  | nil => exact ⟨rfl, rfl⟩
  | cons zc rest ih =>
    obtain ⟨hres, hcalls⟩ := sync_py_result_calls_eq env1 env2 hlist herr1 herr2
      zid zc.name dom zc.ips hl zc.ttl zc.proxied
    cases h2 : (sync_dns_records_py env2 zid zc.name dom zc.ips hl zc.ttl zc.proxied).result with
    | error e =>
      have h1 : (sync_dns_records_py env1 zid zc.name dom zc.ips hl zc.ttl zc.proxied).result
          = Except.error e := by rw [hres, h2]
      constructor
      · simp only [syncZonesForDomain, h1, h2]
      · simp only [syncZonesForDomain, h1, h2]
        exact hcalls
    | ok u =>
      have h1 : (sync_dns_records_py env1 zid zc.name dom zc.ips hl zc.ttl zc.proxied).result
          = Except.ok u := by rw [hres, h2]
      constructor
      · simp only [syncZonesForDomain, h1, h2]
        exact ih.1
      · simp only [syncZonesForDomain, h1, h2]
        rw [hcalls, ih.2]

theorem _sync_all_zones_eq (env1 env2 : SyncEnv)
    (hlist : env1.listRecords = env2.listRecords)
    (hzone : env1.zoneListOutcome = env2.zoneListOutcome)
    (herr1 : ∀ ev, env1.errorOutcome ev = none)
    (herr2 : ∀ ev, env2.errorOutcome ev = none)
    (hl : List String) :
    ∀ (domains : List DomainConfig) (cache : List (String × String)),
      (_sync_all_zones env1 hl cache domains).1.result
        = (_sync_all_zones env2 hl cache domains).1.result ∧
      (_sync_all_zones env1 hl cache domains).1.calls
        = (_sync_all_zones env2 hl cache domains).1.calls ∧
      (_sync_all_zones env1 hl cache domains).2
        = (_sync_all_zones env2 hl cache domains).2 := by
  intro domains
  induction domains with
  | nil => exact fun cache => ⟨rfl, rfl, rfl⟩
  | cons d rest ih =>
    intro cache
    have hgz : _get_zone_id env1 cache d.domain = _get_zone_id env2 cache d.domain := by
      unfold _get_zone_id get_zone_id_by_domain
      rw [hzone]
    cases hz : (_get_zone_id env2 cache d.domain).zone_id with
    | none =>
      have hz1 : (_get_zone_id env1 cache d.domain).zone_id = none := by rw [hgz, hz]
      simp only [_sync_all_zones, hz1, hz, hgz]
      exact ih (_get_zone_id env2 cache d.domain).cache
    | some zid =>
      have hz1 : (_get_zone_id env1 cache d.domain).zone_id = some zid := by rw [hgz, hz]
      by_cases hempty : zid = ""
      · simp only [_sync_all_zones, hz1, hz, hgz, hempty, if_pos rfl]
        exact ih (_get_zone_id env2 cache d.domain).cache
      · obtain ⟨hzres, hzcalls⟩ := syncZonesForDomain_eq env1 env2 hlist herr1 herr2
          d.domain zid hl d.zones
        cases hs2 : (syncZonesForDomain env2 d.domain zid hl d.zones).result with
        | error e =>
          have hs1 : (syncZonesForDomain env1 d.domain zid hl d.zones).result
              = Except.error e := by rw [hzres, hs2]
          simp only [_sync_all_zones, hz1, hz, hgz, if_neg hempty, hs1, hs2]
          exact ⟨trivial, hzcalls, trivial⟩
        | ok u =>
          have hs1 : (syncZonesForDomain env1 d.domain zid hl d.zones).result
              = Except.ok u := by rw [hzres, hs2]
          simp only [_sync_all_zones, hz1, hz, hgz, if_neg hempty, hs1, hs2]
          obtain ⟨ha, hb, hc⟩ := ih (_get_zone_id env2 cache d.domain).cache
          exact ⟨ha, by rw [hzcalls, hb], hc⟩

/-- C9: a provider exception inside an individual create or delete is
caught inside that action, which reports failure by returning False, and
never propagates (provided the error notifier honours its fire-and-forget
contract of section 4.4 — the program in __main__ even runs with no
notifier at all): the zone batch attempts every computed action and the
sync returns normally no matter which mutations fail, and the mutation
trace of the entire cycle over all zones is unchanged under an arbitrary
reassignment of every per-mutation outcome. -/
theorem per_action_failure_isolated (env : SyncEnv) (f : Mutation → Option String)
    (domains : List DomainConfig) (healthy : List String)
    (cache : List (String × String)) (zone_id zone_name domain : String)
    (entries : List (String × Nat)) (recs : List DNSRecord) (ttl : Nat) (proxied : Bool)
    (herr : ∀ ev, env.errorOutcome ev = none)
    (hlist : env.listRecords zone_id (zone_name ++ "." ++ domain) = Except.ok recs) :
    (sync_dns_records env zone_id zone_name domain entries healthy ttl proxied).result
        = Except.ok () ∧
    (sync_dns_records env zone_id zone_name domain entries healthy ttl proxied).calls
        = actionCalls zone_id (zone_name ++ "." ++ domain) ttl proxied
            (syncActions entries healthy recs) ∧
    (_sync_all_zones { env with mutationOutcome := f } healthy cache domains).1.calls
        = (_sync_all_zones env healthy cache domains).1.calls := by
  obtain ⟨h1, h2⟩ := sync_dns_records_ok env zone_id zone_name domain entries healthy
    ttl proxied recs herr hlist
  refine ⟨h1, h2, ?_⟩
  exact (_sync_all_zones_eq { env with mutationOutcome := f } env rfl rfl herr herr
    healthy domains cache).2.1

/-- Zone used to instantiate the per-action isolation theorem. -/
def zoneC9 : ZoneConfigEntry := ⟨"sub", ConfiguredIps.ipDict [("10.0.0.1", 1)], 120, false⟩

theorem per_action_failure_isolated_witness :
    (sync_dns_records envBase "z1" "sub" "example.com" [("10.0.0.1", 1)]
        ["10.0.0.1"] 120 false).result = Except.ok () ∧
    (sync_dns_records envBase "z1" "sub" "example.com" [("10.0.0.1", 1)]
        ["10.0.0.1"] 120 false).calls
      = actionCalls "z1" ("sub" ++ "." ++ "example.com") 120 false
          (syncActions [("10.0.0.1", 1)] ["10.0.0.1"] []) ∧
    (_sync_all_zones { envBase with mutationOutcome := fun _ => some "ProviderError" }
        ["10.0.0.1"] [] [⟨"example.com", [zoneC9]⟩]).1.calls
      = (_sync_all_zones envBase ["10.0.0.1"] [] [⟨"example.com", [zoneC9]⟩]).1.calls :=
  per_action_failure_isolated envBase (fun _ => some "ProviderError")
    [⟨"example.com", [zoneC9]⟩] ["10.0.0.1"] [] "z1" "sub" "example.com"
    [("10.0.0.1", 1)] [] 120 false (fun _ => rfl) rfl

/-- C10: when the DNS mutation of a single add (resp. remove) action
succeeds but the subsequent notify_dns_change call raises, the exception
lands in that action's own except-clause and does not propagate (the
error notifier being fire-and-forget): the action returns False and emits
a dnsError event with action add (resp. remove) — although the record was
actually created (resp. deleted), as the mutation call in the trace
shows. -/
theorem notify_failure_reports_error (env : SyncEnv)
    (z fd d zn ip ip2 e e2 : String) (ttl : Nat) (p : Bool) (record : DNSRecord)
    (hp : env.notifierPresent = true)
    (hc : env.notify_dns_changes = true)
    (he : env.notify_errors = true)
    (hmut : env.mutationOutcome (Mutation.createCall z fd ip ttl p) = none)
    (hdel : env.mutationOutcome (Mutation.deleteCall z record.id) = none)
    (hcho : env.changeOutcome (NotifyEvent.dnsChange d zn ip "added") = some e)
    (hcho2 : env.changeOutcome (NotifyEvent.dnsChange d zn ip2 "removed") = some e2)
    (herr : ∀ ev, env.errorOutcome ev = none) :
    _add_record env z fd d zn ip ttl p
      = ⟨Except.ok false, [Mutation.createCall z fd ip ttl p],
          [NotifyEvent.dnsChange d zn ip "added",
           NotifyEvent.dnsError d zn ip "add" e]⟩ ∧
    _remove_record env z d zn ip2 record
      = ⟨Except.ok false, [Mutation.deleteCall z record.id],
          [NotifyEvent.dnsChange d zn ip2 "removed",
           NotifyEvent.dnsError d zn ip2 "remove" e2]⟩ := by
  constructor
  · simp only [_add_record, hmut, hp, hc, Bool.and_self, if_true, hcho,
      addFailure, he, herr]
    rfl
  · simp only [_remove_record, hdel, hp, hc, Bool.and_self, if_true, hcho2,
      removeFailure, he, herr]
    rfl

theorem notify_failure_reports_error_witness :
    _add_record
        { envBase with
          notifierPresent := true,
          changeOutcome := fun _ => some "TelegramError" }
        "z1" "sub.example.com" "example.com" "sub" "10.0.0.1" 120 false
      = ⟨Except.ok false,
          [Mutation.createCall "z1" "sub.example.com" "10.0.0.1" 120 false],
          [NotifyEvent.dnsChange "example.com" "sub" "10.0.0.1" "added",
           NotifyEvent.dnsError "example.com" "sub" "10.0.0.1" "add" "TelegramError"]⟩ ∧
    _remove_record
        { envBase with
          notifierPresent := true,
          changeOutcome := fun _ => some "TelegramError" }
        "z1" "example.com" "sub" "10.0.0.9"
        ⟨"r9", "sub.example.com", "10.0.0.9", 120, false⟩
      = ⟨Except.ok false, [Mutation.deleteCall "z1" "r9"],
          [NotifyEvent.dnsChange "example.com" "sub" "10.0.0.9" "removed",
           NotifyEvent.dnsError "example.com" "sub" "10.0.0.9" "remove" "TelegramError"]⟩ :=
  notify_failure_reports_error
    { envBase with
      notifierPresent := true,
      changeOutcome := fun _ => some "TelegramError" }
    "z1" "sub.example.com" "example.com" "sub" "10.0.0.1" "10.0.0.9"
    "TelegramError" "TelegramError" 120 false
    ⟨"r9", "sub.example.com", "10.0.0.9", 120, false⟩
    rfl rfl rfl rfl rfl rfl rfl (fun _ => rfl)

example :
    syncActions [("10.0.0.1", 2)] ["10.0.0.1"] []
      = [DNSAction.create "10.0.0.1", DNSAction.create "10.0.0.1"] := by decide

example :
    syncActions [("10.0.0.1", 1)] []
        [⟨"r1", "sub.example.com", "10.0.0.1", 120, false⟩]
      = [DNSAction.remove ⟨"r1", "sub.example.com", "10.0.0.1", 120, false⟩] := by decide

example :
    syncActions [("10.0.0.1", 1)] ["10.0.0.1"]
        [⟨"r9", "sub.example.com", "10.0.0.9", 120, false⟩]
      = [DNSAction.create "10.0.0.1",
         DNSAction.remove ⟨"r9", "sub.example.com", "10.0.0.9", 120, false⟩] := by decide

end RemnaCF
